import Mathlib

set_option linter.unusedVariables false

/-!
Shallow embedding of the background worker of the bot/website hosting
platform (`BotManager`, `WebsiteManager`, the cron sweeps, the SIGTERM
drain and the daily backup task).

The JavaScript `Map` registries (`runningBots`, `deployedWebsites`) are
modelled as association lists with JS `Map` semantics (`has`, `get`,
`set` replaces in place or appends, `delete` removes).  The SQLite
tables `bots` and `websites` are modelled as lists of rows; the only
statement the worker issues against them is
`UPDATE ... SET status = ?, updated_at = CURRENT_TIMESTAMP WHERE id = ?`.

Sources of nondeterminism are made explicit parameters:
* `now` stands for `new Date()` / `CURRENT_TIMESTAMP`,
* `pid` stands for the mock `Math.floor(Math.random() * 10000)`,
* each database write takes a `Bool` saying whether `db.run` succeeds
  (`true`) or calls back with an error, which rejects the wrapping
  promise (`false`).

An operation whose promise rejects (an exception escaping the JS
function) is modelled with `Except Unit`.
-/

namespace Worker

/-- In-memory handle stored in `runningBots` (the `botProcess` object of
`startBot`). -/
structure BotProcess where
  id : Nat
  startTime : Nat
  status : String
  pid : Nat
deriving Repr, DecidableEq

/-- A row of the `bots` table, restricted to the columns the worker
reads or writes. -/
structure BotRow where
  id : Nat
  status : String
  file_path : String
  config : String
  updated_at : Nat
deriving Repr, DecidableEq

/-- In-memory handle stored in `deployedWebsites` (the `deployment`
object of `deployWebsite`). -/
structure Deployment where
  id : Nat
  domain : String
  deployTime : Nat
  status : String
  url : String
deriving Repr, DecidableEq

/-- A row of the `websites` table, restricted to the columns the worker
reads or writes. -/
structure WebsiteRow where
  id : Nat
  status : String
  file_path : String
  domain : String
  updated_at : Nat
deriving Repr, DecidableEq

/-- The worker's mutable state: the two in-memory registries and the two
database tables. -/
structure WorkerState where
  runningBots : List (Nat × BotProcess)
  deployedWebsites : List (Nat × Deployment)
  bots : List BotRow
  websites : List WebsiteRow
deriving Repr, DecidableEq

/-- Decidable equality for `Except`, used to evaluate operation results
on concrete inputs. -/
instance exceptDecEq {α β : Type} [DecidableEq α] [DecidableEq β] :
    DecidableEq (Except α β) := fun a b =>
  match a, b with
  | .error x, .error y =>
    if h : x = y then .isTrue (by rw [h]) else .isFalse (fun hc => h (Except.error.inj hc))
  | .ok x, .ok y =>
    if h : x = y then .isTrue (by rw [h]) else .isFalse (fun hc => h (Except.ok.inj hc))
  | .error x, .ok y => .isFalse (fun hc => Except.noConfusion hc)
  | .ok x, .error y => .isFalse (fun hc => Except.noConfusion hc)

/-- JS `Map.prototype.has`. -/
def mapHas {α : Type} (m : List (Nat × α)) (k : Nat) : Bool :=
  m.any (fun p => p.1 == k)

/-- JS `Map.prototype.get`. -/
def mapGet {α : Type} (m : List (Nat × α)) (k : Nat) : Option α :=
  (m.find? (fun p => p.1 == k)).map (fun p => p.2)

/-- JS `Map.prototype.set`: replaces the value in place when the key is
present, otherwise appends (insertion order is preserved). -/
def mapSet {α : Type} (m : List (Nat × α)) (k : Nat) (v : α) : List (Nat × α) :=
  if mapHas m k then m.map (fun p => if p.1 == k then (k, v) else p)
  else m ++ [(k, v)]

/-- JS `Map.prototype.delete`. -/
def mapDelete {α : Type} (m : List (Nat × α)) (k : Nat) : List (Nat × α) :=
  m.filter (fun p => p.1 != k)

/-- `UPDATE bots SET status = ?, updated_at = CURRENT_TIMESTAMP WHERE id = ?`. -/
def updateBotStatus (rows : List BotRow) (botId : Nat) (status : String)
    (now : Nat) : List BotRow :=
  rows.map (fun r => if r.id == botId then { r with status := status, updated_at := now } else r)

/-- `UPDATE websites SET status = ?, updated_at = CURRENT_TIMESTAMP WHERE id = ?`. -/
def updateWebsiteStatus (rows : List WebsiteRow) (websiteId : Nat) (status : String)
    (now : Nat) : List WebsiteRow :=
  rows.map (fun r => if r.id == websiteId then { r with status := status, updated_at := now } else r)

/-- Status of the row for `botId` in a `bots` table, `none` when no row
matches (an `UPDATE` then changes nothing, `this.changes = 0`). -/
def getBotStatus (rows : List BotRow) (botId : Nat) : Option String :=
  (rows.find? (fun r => r.id == botId)).map (fun r => r.status)

/-- Status of the row for `websiteId` in a `websites` table. -/
def getWebsiteStatus (rows : List WebsiteRow) (websiteId : Nat) : Option String :=
  (rows.find? (fun r => r.id == websiteId)).map (fun r => r.status)

/-- `BotManager.startBot(botId, botPath, config)`.  `botPath` and
`config` are accepted but unused — the source stubs real process
execution.  `wOk` says whether the `updateBotStatus(botId, 'running')`
write succeeds; on failure the `catch` block runs
`updateBotStatus(botId, 'error')`, whose own success is `errOk`; when
that also fails the exception escapes `startBot` (`.error ()`).
Note the handle is inserted into `runningBots` before the write and the
`catch` block does not remove it. -/
def startBot (s : WorkerState) (botId : Nat) ( botPath config : String)
    (now pid : Nat) (wOk errOk : Bool) : WorkerState × Except Unit Bool :=
  if mapHas s.runningBots botId then (s, .ok false)
  else
    let botProcess : BotProcess :=
      { id := botId, startTime := now, status := "running", pid := pid }
    let s1 := { s with runningBots := mapSet s.runningBots botId botProcess }
    if wOk then
      ({ s1 with bots := updateBotStatus s1.bots botId "running" now }, .ok true)
    else if errOk then
      ({ s1 with bots := updateBotStatus s1.bots botId "error" now }, .ok false)
    else (s1, .error ())

/-- `BotManager.stopBot(botId)`.  `wOk` says whether the
`updateBotStatus(botId, 'stopped')` write succeeds; on failure the
`catch` block just returns `false`, so `stopBot` never rejects, and the
handle has already been deleted. -/
def stopBot (s : WorkerState) (botId : Nat) (now : Nat) (wOk : Bool) :
    WorkerState × Bool :=
  match mapGet s.runningBots botId with
  | none => (s, false)
  | some _ =>
    let s1 := { s with runningBots := mapDelete s.runningBots botId }
    if wOk then
      ({ s1 with bots := updateBotStatus s1.bots botId "stopped" now }, true)
    else (s1, false)

/-- The fixed cooldown `restartBot` awaits between `stopBot` and
`startBot` (`setTimeout(resolve, 2000)`). -/
def restartCooldownMs : Nat := 2000

/-- `BotManager.restartBot(botId, botPath, config)`: `stopBot`, then the
2000 ms cooldown (no state effect), then `startBot`, returning the
result of `startBot`. -/
def restartBot (s : WorkerState) (botId : Nat) ( botPath config : String)
    (now1 now2 pid : Nat) (stopOk wOk errOk : Bool) :
    WorkerState × Except Unit Bool :=
  let r := stopBot s botId now1 stopOk
  startBot r.1 botId botPath config now2 pid wOk errOk

/-- `WebsiteManager.deployWebsite(websiteId, websitePath, domain)`.
`websitePath` is unused (stubbed deployment).  A falsy `domain` (the
empty string) defaults to `` `${websiteId}.localhost` ``.  Returns the
deployment object on success and `false` (here `none`) otherwise; the
handle is inserted before the write and kept on failure, like
`startBot`. -/
def deployWebsite (s : WorkerState) (websiteId : Nat) ( websitePath domain : String)
    (now : Nat) (wOk errOk : Bool) : WorkerState × Except Unit (Option Deployment) :=
  if mapHas s.deployedWebsites websiteId then (s, .ok none)
  else
    let dom := if domain == "" then toString websiteId ++ ".localhost" else domain
    let deployment : Deployment :=
      { id := websiteId, domain := dom, deployTime := now, status := "active",
        url := "https://" ++ dom }
    let s1 := { s with deployedWebsites := mapSet s.deployedWebsites websiteId deployment }
    if wOk then
      ({ s1 with websites := updateWebsiteStatus s1.websites websiteId "active" now },
        .ok (some deployment))
    else if errOk then
      ({ s1 with websites := updateWebsiteStatus s1.websites websiteId "error" now },
        .ok none)
    else (s1, .error ())

/-- `WebsiteManager.undeployWebsite(websiteId)`: mirror of `stopBot`. -/
def undeployWebsite (s : WorkerState) (websiteId : Nat) (now : Nat) (wOk : Bool) :
    WorkerState × Bool :=
  match mapGet s.deployedWebsites websiteId with
  | none => (s, false)
  | some _ =>
    let s1 := { s with deployedWebsites := mapDelete s.deployedWebsites websiteId }
    if wOk then
      ({ s1 with websites := updateWebsiteStatus s1.websites websiteId "inactive" now }, true)
    else (s1, false)

/-- `BotManager.getRunningBots()`: `Array.from(this.runningBots.values())`. -/
def getRunningBots (s : WorkerState) : List BotProcess :=
  s.runningBots.map (fun p => p.2)

/-- Number of registry entries stored under key `k`. -/
def countId {α : Type} (m : List (Nat × α)) (k : Nat) : Nat :=
  (m.filter (fun p => p.1 == k)).length

/-- Nondeterministic inputs of one `healthCheck` loop iteration:
`faulty` is `Math.random() < 0.01`, the remaining fields feed the
`restartBot` call on the faulty path and the `stopBot` call of the
`catch` block. -/
structure HealthFlags where
  faulty : Bool
  stopOk : Bool
  wOk : Bool
  errOk : Bool
  catchStopOk : Bool
  now1 : Nat
  now2 : Nat
  pid : Nat

/-- One iteration of the `healthCheck` loop: on a simulated fault it
awaits `restartBot(bot.id, '', {})`; an exception escaping the restart
is caught per entry and answered with `stopBot(bot.id)` (which itself
never throws), so the sweep always continues. -/
def healthCheckEntry (s : WorkerState) (bot : BotProcess) (f : HealthFlags) :
    WorkerState :=
  if f.faulty then
    match restartBot s bot.id "" "{}" f.now1 f.now2 f.pid f.stopOk f.wOk f.errOk with
    | (s', .ok _) => s'
    | (s', .error _) => (stopBot s' bot.id f.now2 f.catchStopOk).1
  else s

/-- The `healthCheck` loop over an already-taken snapshot, threading the
per-iteration flag oracle by index. -/
def healthCheckAux (s : WorkerState) : List BotProcess → (Nat → HealthFlags) → Nat →
    WorkerState
  | [], _, _ => s
  | b :: bs, fl, k => healthCheckAux (healthCheckEntry s b (fl k)) bs fl (k + 1)

/-- `BotManager.healthCheck()`: snapshots `getRunningBots()` once, then
iterates over the snapshot with a per-entry `try`/`catch`. -/
def healthCheck (s : WorkerState) (fl : Nat → HealthFlags) : WorkerState :=
  healthCheckAux s (getRunningBots s) fl 0

/-- Nondeterministic inputs of one reconciliation `startBot` /
`deployWebsite` call. -/
structure StartFlags where
  wOk : Bool
  errOk : Bool
  now : Nat
  pid : Nat

/-- The `bots` rows returned by `SELECT * FROM bots WHERE status = "running"`. -/
def activeBotRows (s : WorkerState) : List BotRow :=
  s.bots.filter (fun r => r.status == "running")

/-- The `websites` rows returned by
`SELECT * FROM websites WHERE status = "active"`. -/
def activeWebsiteRows (s : WorkerState) : List WebsiteRow :=
  s.websites.filter (fun r => r.status == "active")

/-- The bot half of the deployment-status cron sweep, over the row
snapshot read from the store.  Returns the final state, the trace of
`startBot(bot.id, bot.file_path, bot.config)` calls issued, and whether
an exception escaped a `startBot` (which rejects the async callback and
skips the remaining rows: the loop has no per-entry `try`/`catch`). -/
def reconcileBotsAux (s : WorkerState) :
    List BotRow → (Nat → StartFlags) → Nat →
    WorkerState × List (Nat × String × String) × Bool
  | [], _, _ => (s, [], false)
  | r :: rs, fl, k =>
    if mapHas s.runningBots r.id then reconcileBotsAux s rs fl (k + 1)
    else
      match startBot s r.id r.file_path r.config (fl k).now (fl k).pid
          (fl k).wOk (fl k).errOk with
      | (s', .ok _) =>
        let rest := reconcileBotsAux s' rs fl (k + 1)
        (rest.1, (r.id, r.file_path, r.config) :: rest.2.1, rest.2.2)
      | (s', .error _) => (s', [(r.id, r.file_path, r.config)], true)

/-- Bot half of one deployment-status check tick. -/
def reconcileBots (s : WorkerState) (fl : Nat → StartFlags) :
    WorkerState × List (Nat × String × String) × Bool :=
  reconcileBotsAux s (activeBotRows s) fl 0

/-- The website half of the sweep: `deployWebsite(website.id,
website.file_path, website.domain)` for every active row absent from
`deployedWebsites`. -/
def reconcileWebsitesAux (s : WorkerState) :
    List WebsiteRow → (Nat → StartFlags) → Nat →
    WorkerState × List (Nat × String × String) × Bool
  | [], _, _ => (s, [], false)
  | r :: rs, fl, k =>
    if mapHas s.deployedWebsites r.id then reconcileWebsitesAux s rs fl (k + 1)
    else
      match deployWebsite s r.id r.file_path r.domain (fl k).now
          (fl k).wOk (fl k).errOk with
      | (s', .ok _) =>
        let rest := reconcileWebsitesAux s' rs fl (k + 1)
        (rest.1, (r.id, r.file_path, r.domain) :: rest.2.1, rest.2.2)
      | (s', .error _) => (s', [(r.id, r.file_path, r.domain)], true)

/-- Website half of one deployment-status check tick. -/
def reconcileWebsites (s : WorkerState) (fl : Nat → StartFlags) :
    WorkerState × List (Nat × String × String) × Bool :=
  reconcileWebsitesAux s (activeWebsiteRows s) fl 0

/-- One tick of the `*/10` deployment-status cron job: the bot sweep
(when its `db.all` read succeeds, `readBotsOk`) followed by the website
sweep (when `readWebsOk`); a failed read logs and returns, skipping
that half.  Result: final state, bot call trace, website call trace. -/
def reconcileCycle (s : WorkerState) (readBotsOk readWebsOk : Bool)
    (flB flW : Nat → StartFlags) :
    WorkerState × List (Nat × String × String) × List (Nat × String × String) :=
  let rb := if readBotsOk then reconcileBots s flB else (s, [], false)
  let rw := if readWebsOk then reconcileWebsites rb.1 flW else (rb.1, [], false)
  (rw.1, rb.2.1, rw.2.1)

/-- The SIGTERM drain loop: `stopBot(bot.id)` for every entry of the
`getRunningBots()` snapshot.  `fl` gives the `now` and write-success
flag of each stop; `stopBot` never rejects, so every entry is
attempted. -/
def sigtermDrainAux (s : WorkerState) : List BotProcess → (Nat → Nat × Bool) → Nat →
    WorkerState
  | [], _, _ => s
  | b :: bs, fl, k => sigtermDrainAux (stopBot s b.id (fl k).1 (fl k).2).1 bs fl (k + 1)

/-- The `process.on('SIGTERM', ...)` handler: snapshots
`botManager.getRunningBots()`, stops each bot, then exits with code 0
(each `stopBot` promise always resolves, so `Promise.all`'s `.catch`
branch — exit code 1 — is unreachable).  Websites are not touched. -/
def sigtermHandler (s : WorkerState) (fl : Nat → Nat × Bool) : WorkerState × Nat :=
  (sigtermDrainAux s (getRunningBots s) fl 0, 0)

/-- The `process.on('SIGINT', ...)` handler: exits with code 0 without
draining anything. -/
def sigintHandler (s : WorkerState) : WorkerState × Nat := (s, 0)

/-- Leading filename part the backup task filters on
(`file.startsWith('database-backup-')`). -/
def backupStem : String := "database-backup-"

/-- Name of the snapshot written for timestamp string `ts`
(`database-backup-${timestamp}.sqlite`). -/
def backupName (ts : String) : String := backupStem ++ ts ++ ".sqlite"

/-- Whether the first character list leads the second, by scalar value;
`dataStartsWith pat.data f.data` embeds `f.startsWith(pat)`. -/
def dataStartsWith : List Char → List Char → Bool
  | [], _ => true
  | _ :: _, [] => false
  | a :: as, b :: bs => if a.toNat = b.toNat then dataStartsWith as bs else false

/-- Embedding of `String.prototype.startsWith` on the underlying
character lists. -/
def strStartsWith (f pat : String) : Bool := dataStartsWith pat.data f.data

/-- Lexicographic strict order on character lists by scalar value,
modelling the JS string comparison used by `Array.prototype.sort()` (for
the ASCII backup filenames, code-unit order and scalar-value order
coincide). -/
def charListLtb : List Char → List Char → Bool
  | [], [] => false
  | [], _ :: _ => true
  | _ :: _, [] => false
  | a :: as, b :: bs =>
    if a.toNat < b.toNat then true
    else if b.toNat < a.toNat then false
    else charListLtb as bs

/-- Strict string comparison on the underlying character lists. -/
def strLtb (a b : String) : Bool := charListLtb a.data b.data

/-- Insert into a list kept in ascending string order. -/
def insertSorted (x : String) : List String → List String
  | [] => [x]
  | y :: ys => if strLtb y x then y :: insertSorted x ys else x :: y :: ys

/-- Ascending string sort, modelling `backupFiles.sort()` (JS default
sort on strings is lexicographic ascending; sorted permutations of one
multiset coincide, so any correct sort models it). -/
def sortStrings : List String → List String
  | [] => []
  | x :: xs => insertSorted x (sortStrings xs)

/-- One run of the daily backup cron task over the directory listing
`files` (the pre-existing entries of `backups/`) with timestamp string
`ts`: copy the database to a new snapshot, re-read the directory, filter
names starting with `database-backup-`, and when more than 7 remain,
sort ascending and unlink the oldest beyond the newest 7.  Returns the
resulting directory listing and the list of deleted files. -/
def backupTask (files : List String) (ts : String) : List String × List String :=
  let files1 := files ++ [backupName ts]
  let backupFiles := files1.filter (fun f => strStartsWith f backupStem)
  if backupFiles.length > 7 then
    let sorted := sortStrings backupFiles
    let filesToDelete := sorted.take (sorted.length - 7)
    (files1.filter (fun f => !(filesToDelete.contains f)), filesToDelete)
  else (files1, [])

/-! ### Basic lemmas about the registry maps and the status tables -/

theorem mapGet_eq_none_iff {α : Type} (m : List (Nat × α)) (k : Nat) :
    mapGet m k = none ↔ mapHas m k = false := by
  induction m with
  | nil => simp [mapGet, mapHas]
  | cons p ps ih =>
    by_cases h : p.1 = k
    · simp [mapGet, mapHas, List.find?, h]
    · have hb : (p.1 == k) = false := by simp [h]
      simp only [mapGet, mapHas, List.find?, List.any_cons, hb] at ih ⊢
      simpa using ih

theorem mapHas_of_mapGet_eq_some {α : Type} {m : List (Nat × α)} {k : Nat} {v : α}
    (h : mapGet m k = some v) : mapHas m k = true := by
  by_contra hc
  have hf : mapHas m k = false := by
    cases hh : mapHas m k
    · rfl
    · exact absurd hh hc
  rw [(mapGet_eq_none_iff m k).mpr hf] at h
  exact Option.noConfusion h

theorem mapSet_of_not_has {α : Type} {m : List (Nat × α)} {k : Nat} (v : α)
    (h : mapHas m k = false) : mapSet m k v = m ++ [(k, v)] := by
  simp [mapSet, h]

theorem mapHas_append_single {α : Type} (m : List (Nat × α)) (k : Nat) (v : α) :
    mapHas (m ++ [(k, v)]) k = true := by
  simp [mapHas]

theorem countId_eq_zero_of_not_has {α : Type} {m : List (Nat × α)} {k : Nat}
    (h : mapHas m k = false) : countId m k = 0 := by
  induction m with
  | nil => rfl
  | cons p ps ih =>
    simp only [mapHas, List.any_cons, Bool.or_eq_false_iff] at h
    simp only [countId, List.filter, h.1]
    exact ih h.2

theorem countId_append_single {α : Type} (m : List (Nat × α)) (k : Nat) (v : α) :
    countId (m ++ [(k, v)]) k = countId m k + 1 := by
  simp [countId, List.filter_append]

theorem mapHas_mapSet_mono {α : Type} {m : List (Nat × α)} {k' : Nat}
    (k : Nat) (v : α) (h : mapHas m k' = true) :
    mapHas (mapSet m k v) k' = true := by
  by_cases hk : mapHas m k
  · simp only [mapSet, hk, if_true]
    simp only [mapHas, List.any_eq_true] at h ⊢
    obtain ⟨p, hp, hpk⟩ := h
    refine ⟨if p.1 == k then (k, v) else p, List.mem_map.mpr ⟨p, hp, rfl⟩, ?_⟩
    by_cases hpk2 : p.1 = k
    · simp only [hpk2, beq_self_eq_true, if_true]
      simp only [beq_iff_eq] at hpk
      simpa [← hpk2] using hpk
    · simp [hpk2, hpk]
  · have hf : mapHas m k = false := by
      cases hh : mapHas m k
      · rfl
      · exact absurd hh (by simp [hk])
    rw [mapSet_of_not_has v hf]
    simp only [mapHas] at h
    simp only [mapHas, List.any_append, h, Bool.true_or]

theorem updateBotStatus_cons (r : BotRow) (rs : List BotRow) (botId : Nat)
    (st : String) (now : Nat) :
    updateBotStatus (r :: rs) botId st now
      = (if r.id == botId then { r with status := st, updated_at := now } else r)
          :: updateBotStatus rs botId st now := by
  simp [updateBotStatus]

theorem getBotStatus_update_self (rows : List BotRow) (botId : Nat) (st : String)
    (now : Nat) :
    getBotStatus (updateBotStatus rows botId st now) botId
      = (getBotStatus rows botId).map (fun _ => st) := by
  unfold getBotStatus updateBotStatus
  rw [List.find?_map]
  have hpred : ((fun (r : BotRow) => r.id == botId) ∘ fun r =>
      if r.id == botId then { r with status := st, updated_at := now } else r)
      = (fun (r : BotRow) => r.id == botId) := by
    funext r
    by_cases h : r.id = botId <;> simp [h]
  rw [hpred]
  cases hf : List.find? (fun (r : BotRow) => r.id == botId) rows with
  | none => simp
  | some a =>
    have ha : a.id = botId := by
      have h0 := List.find?_some hf
      simpa using h0
    simp [ha]

theorem getBotStatus_update_ne (rows : List BotRow) {botId botId' : Nat} (st : String)
    (now : Nat) (h : botId' ≠ botId) :
    getBotStatus (updateBotStatus rows botId st now) botId'
      = getBotStatus rows botId' := by
  unfold getBotStatus updateBotStatus
  rw [List.find?_map]
  have hpred : ((fun (r : BotRow) => r.id == botId') ∘ fun r =>
      if r.id == botId then { r with status := st, updated_at := now } else r)
      = (fun (r : BotRow) => r.id == botId') := by
    funext r
    by_cases hr : r.id = botId <;> simp [hr]
  rw [hpred]
  cases hf : List.find? (fun (r : BotRow) => r.id == botId') rows with
  | none => simp
  | some a =>
    have ha : a.id = botId' := by
      have h0 := List.find?_some hf
      simpa using h0
    simp [ha, h]

theorem updateWebsiteStatus_cons (r : WebsiteRow) (rs : List WebsiteRow)
    (websiteId : Nat) (st : String) (now : Nat) :
    updateWebsiteStatus (r :: rs) websiteId st now
      = (if r.id == websiteId then { r with status := st, updated_at := now } else r)
          :: updateWebsiteStatus rs websiteId st now := by
  simp [updateWebsiteStatus]

theorem getWebsiteStatus_update_self (rows : List WebsiteRow) (websiteId : Nat)
    (st : String) (now : Nat) :
    getWebsiteStatus (updateWebsiteStatus rows websiteId st now) websiteId
      = (getWebsiteStatus rows websiteId).map (fun _ => st) := by
  unfold getWebsiteStatus updateWebsiteStatus
  rw [List.find?_map]
  have hpred : ((fun (r : WebsiteRow) => r.id == websiteId) ∘ fun r =>
      if r.id == websiteId then { r with status := st, updated_at := now } else r)
      = (fun (r : WebsiteRow) => r.id == websiteId) := by
    funext r
    by_cases h : r.id = websiteId <;> simp [h]
  rw [hpred]
  cases hf : List.find? (fun (r : WebsiteRow) => r.id == websiteId) rows with
  | none => simp
  | some a =>
    have ha : a.id = websiteId := by
      have h0 := List.find?_some hf
      simpa using h0
    simp [ha]

/-! ### Claim C1 -/

/-- Sample state used by witnesses: empty registries, one bot row and
one website row in the store. -/
def sampleState : WorkerState :=
  { runningBots := []
    deployedWebsites := []
    bots := [⟨1, "stopped", "uploads/bots/1.zip", "{}", 0⟩]
    websites := [⟨2, "inactive", "uploads/websites/2.zip", "example.com", 0⟩] }

/-- C1: if a handle for the id already exists, `startBot` /
`deployWebsite` return `false` and change nothing; otherwise they insert
exactly one new handle and persist the active status (`running` for
bots, `active` for websites), and a second start for the same id leaves
the registry with exactly one handle for it and returns `false`. -/
theorem C1_start_idempotent_inserts_one (s : WorkerState) (botId webId : Nat)
    (path cfg wpath wdom : String) (now pid now' pid' wnow wnow' : Nat) :
    (mapHas s.runningBots botId = true →
      startBot s botId path cfg now pid true true = (s, .ok false)) ∧
    (mapHas s.runningBots botId = false →
      (startBot s botId path cfg now pid true true).2 = .ok true ∧
      (startBot s botId path cfg now pid true true).1.runningBots
        = s.runningBots ++ [(botId, ⟨botId, now, "running", pid⟩)] ∧
      countId (startBot s botId path cfg now pid true true).1.runningBots botId = 1 ∧
      getBotStatus (startBot s botId path cfg now pid true true).1.bots botId
        = (getBotStatus s.bots botId).map (fun _ => "running") ∧
      startBot (startBot s botId path cfg now pid true true).1 botId path cfg
          now' pid' true true
        = ((startBot s botId path cfg now pid true true).1, .ok false)) ∧
    (mapHas s.deployedWebsites webId = true →
      deployWebsite s webId wpath wdom wnow true true = (s, .ok none)) ∧
    (mapHas s.deployedWebsites webId = false →
      (∃ d, (deployWebsite s webId wpath wdom wnow true true).2 = .ok (some d)) ∧
      countId (deployWebsite s webId wpath wdom wnow true true).1.deployedWebsites webId
        = 1 ∧
      getWebsiteStatus (deployWebsite s webId wpath wdom wnow true true).1.websites webId
        = (getWebsiteStatus s.websites webId).map (fun _ => "active") ∧
      deployWebsite (deployWebsite s webId wpath wdom wnow true true).1 webId wpath wdom
          wnow' true true
        = ((deployWebsite s webId wpath wdom wnow true true).1, .ok none)) := by
  refine ⟨fun h => by simp [startBot, h], fun h => ?_, fun h => by simp [deployWebsite, h],
    fun h => ?_⟩
  · have hset := mapSet_of_not_has
      (⟨botId, now, "running", pid⟩ : BotProcess) h
    have hstate : startBot s botId path cfg now pid true true
        = ({ s with
              runningBots := s.runningBots ++ [(botId, BotProcess.mk botId now "running" pid)],
              bots := updateBotStatus s.bots botId "running" now }, .ok true) := by
      simp [startBot, h, hset]
    refine ⟨by rw [hstate], by rw [hstate], ?_, ?_, ?_⟩
    · rw [hstate]
      simp only [countId_append_single, countId_eq_zero_of_not_has h]
    · rw [hstate]
      exact getBotStatus_update_self s.bots botId "running" now
    · rw [hstate]
      simp [startBot, mapHas_append_single]
  · have hset := mapSet_of_not_has
      (⟨webId, if wdom == "" then toString webId ++ ".localhost" else wdom, wnow, "active",
        "https://" ++ (if wdom == "" then toString webId ++ ".localhost" else wdom)⟩
        : Deployment) h
    have hstate : deployWebsite s webId wpath wdom wnow true true
        = ({ s with
              deployedWebsites := s.deployedWebsites
                ++ [(webId, Deployment.mk webId
                      (if wdom == "" then toString webId ++ ".localhost" else wdom)
                      wnow "active"
                      ("https://" ++ (if wdom == "" then toString webId ++ ".localhost" else wdom)))],
              websites := updateWebsiteStatus s.websites webId "active" wnow },
            .ok (some (Deployment.mk webId
              (if wdom == "" then toString webId ++ ".localhost" else wdom)
              wnow "active"
              ("https://" ++ (if wdom == "" then toString webId ++ ".localhost" else wdom))))) := by
      simp only [deployWebsite, h, Bool.false_eq_true, if_false]
      rw [hset]
      simp
    refine ⟨⟨_, by rw [hstate]⟩, ?_, ?_, ?_⟩
    · rw [hstate]
      simp only [countId_append_single, countId_eq_zero_of_not_has h]
    · rw [hstate]
      exact getWebsiteStatus_update_self s.websites webId "active" wnow
    · rw [hstate]
      simp [deployWebsite, mapHas_append_single]

/-- Witness for C1 at a concrete state with empty registries. -/
theorem C1_start_idempotent_inserts_one_witness :
    mapHas sampleState.runningBots 1 = false ∧
    mapHas sampleState.deployedWebsites 2 = false ∧
    (startBot sampleState 1 "uploads/bots/1.zip" "{}" 3 7 true true).2 = .ok true ∧
    countId (startBot sampleState 1 "uploads/bots/1.zip" "{}" 3 7 true true).1.runningBots 1
      = 1 ∧
    startBot (startBot sampleState 1 "uploads/bots/1.zip" "{}" 3 7 true true).1 1
        "uploads/bots/1.zip" "{}" 4 8 true true
      = ((startBot sampleState 1 "uploads/bots/1.zip" "{}" 3 7 true true).1, .ok false) ∧
    countId (deployWebsite sampleState 2 "uploads/websites/2.zip" "example.com" 3 true
        true).1.deployedWebsites 2 = 1 := by
  have h := C1_start_idempotent_inserts_one sampleState 1 2 "uploads/bots/1.zip" "{}"
    "uploads/websites/2.zip" "example.com" 3 7 4 8 3 4
  have hb := h.2.1 (by decide)
  have hw := h.2.2.2 (by decide)
  exact ⟨by decide, by decide, hb.1, hb.2.2.1, hb.2.2.2.2, hw.2.1⟩

/-! ### Claim C2 -/

theorem mapHas_mapDelete_self {α : Type} (m : List (Nat × α)) (k : Nat) :
    mapHas (mapDelete m k) k = false := by
  induction m with
  | nil => rfl
  | cons p ps ih =>
    by_cases h : p.1 = k
    · simpa [mapDelete, mapHas, h] using ih
    · simpa [mapDelete, mapHas, h] using ih

/-- Sample state used by witnesses of the stop claims: one running bot
handle and one deployed website handle, matching store rows. -/
def sampleState2 : WorkerState :=
  { runningBots := [(1, BotProcess.mk 1 0 "running" 9)]
    deployedWebsites := [(2, Deployment.mk 2 "example.com" 0 "active" "https://example.com")]
    bots := [⟨1, "running", "uploads/bots/1.zip", "{}", 0⟩]
    websites := [⟨2, "active", "uploads/websites/2.zip", "example.com", 0⟩] }

/-- C2: `stopBot` / `undeployWebsite` return `false` and change nothing
when no handle exists; otherwise (with the store write succeeding) they
remove the handle, persist `stopped` / `inactive` and return `true`;
and after any stop call, no handle for the id remains in the registry. -/
theorem C2_stop_removes_and_persists (s : WorkerState) (botId webId now wnow : Nat) :
    (mapHas s.runningBots botId = false →
      ∀ wOk, stopBot s botId now wOk = (s, false)) ∧
    (mapHas s.runningBots botId = true →
      (stopBot s botId now true).2 = true ∧
      getBotStatus (stopBot s botId now true).1.bots botId
        = (getBotStatus s.bots botId).map (fun _ => "stopped")) ∧
    (∀ wOk, mapHas (stopBot s botId now wOk).1.runningBots botId = false) ∧
    (mapHas s.deployedWebsites webId = false →
      ∀ wOk, undeployWebsite s webId wnow wOk = (s, false)) ∧
    (mapHas s.deployedWebsites webId = true →
      (undeployWebsite s webId wnow true).2 = true ∧
      getWebsiteStatus (undeployWebsite s webId wnow true).1.websites webId
        = (getWebsiteStatus s.websites webId).map (fun _ => "inactive")) ∧
    (∀ wOk, mapHas (undeployWebsite s webId wnow wOk).1.deployedWebsites webId = false) := by
  refine ⟨?_, ?_, ?_, ?_, ?_, ?_⟩
  · intro h wOk
    simp [stopBot, (mapGet_eq_none_iff s.runningBots botId).mpr h]
  · intro h
    cases hg : mapGet s.runningBots botId with
    | none => rw [(mapGet_eq_none_iff s.runningBots botId).mp hg] at h; exact absurd h (by simp)
    | some v =>
      constructor
      · simp [stopBot, hg]
      · simp only [stopBot, hg]
        exact getBotStatus_update_self _ botId "stopped" now
  · intro wOk
    cases hg : mapGet s.runningBots botId with
    | none =>
      simp only [stopBot, hg]
      exact (mapGet_eq_none_iff s.runningBots botId).mp hg
    | some v =>
      cases wOk <;> simp [stopBot, hg, mapHas_mapDelete_self]
  · intro h wOk
    simp [undeployWebsite, (mapGet_eq_none_iff s.deployedWebsites webId).mpr h]
  · intro h
    cases hg : mapGet s.deployedWebsites webId with
    | none => rw [(mapGet_eq_none_iff s.deployedWebsites webId).mp hg] at h; exact absurd h (by simp)
    | some v =>
      constructor
      · simp [undeployWebsite, hg]
      · simp only [undeployWebsite, hg]
        exact getWebsiteStatus_update_self _ webId "inactive" wnow
  · intro wOk
    cases hg : mapGet s.deployedWebsites webId with
    | none =>
      simp only [undeployWebsite, hg]
      exact (mapGet_eq_none_iff s.deployedWebsites webId).mp hg
    | some v =>
      cases wOk <;> simp [undeployWebsite, hg, mapHas_mapDelete_self]

/-- Witness for C2 at a concrete state with a running bot and a
deployed website. -/
theorem C2_stop_removes_and_persists_witness :
    mapHas sampleState2.runningBots 1 = true ∧
    mapHas sampleState2.deployedWebsites 2 = true ∧
    (stopBot sampleState2 1 5 true).2 = true ∧
    getBotStatus (stopBot sampleState2 1 5 true).1.bots 1
      = (getBotStatus sampleState2.bots 1).map (fun _ => "stopped") ∧
    mapHas (stopBot sampleState2 1 5 true).1.runningBots 1 = false ∧
    (undeployWebsite sampleState2 2 5 true).2 = true ∧
    mapHas (undeployWebsite sampleState2 2 5 true).1.deployedWebsites 2 = false ∧
    stopBot sampleState2 3 5 true = (sampleState2, false) := by
  have h := C2_stop_removes_and_persists sampleState2 1 2 5 5
  have h3 := C2_stop_removes_and_persists sampleState2 3 2 5 5
  exact ⟨by decide, by decide, (h.2.1 (by decide)).1, (h.2.1 (by decide)).2,
    h.2.2.1 true, (h.2.2.2.2.1 (by decide)).1, h.2.2.2.2.2 true,
    h3.1 (by decide) true⟩

/-! ### Claim C10 -/

/-- C10 (implicit): when a handle exists and the store write fails,
`stopBot` / `undeployWebsite` return `false` even though the handle has
already been removed and the status table is untouched, so a `false`
return does not imply the registry was left unchanged. -/
theorem C10_stop_failure_removes_handle (s : WorkerState) (botId webId now wnow : Nat) :
    (mapHas s.runningBots botId = true →
      (stopBot s botId now false).2 = false ∧
      mapHas (stopBot s botId now false).1.runningBots botId = false ∧
      (stopBot s botId now false).1.bots = s.bots ∧
      (stopBot s botId now false).1.runningBots = mapDelete s.runningBots botId) ∧
    (mapHas s.deployedWebsites webId = true →
      (undeployWebsite s webId wnow false).2 = false ∧
      mapHas (undeployWebsite s webId wnow false).1.deployedWebsites webId = false ∧
      (undeployWebsite s webId wnow false).1.websites = s.websites ∧
      (undeployWebsite s webId wnow false).1.deployedWebsites
        = mapDelete s.deployedWebsites webId) := by
  constructor
  · intro h
    cases hg : mapGet s.runningBots botId with
    | none => rw [(mapGet_eq_none_iff s.runningBots botId).mp hg] at h; exact absurd h (by simp)
    | some v => simp [stopBot, hg, mapHas_mapDelete_self]
  · intro h
    cases hg : mapGet s.deployedWebsites webId with
    | none => rw [(mapGet_eq_none_iff s.deployedWebsites webId).mp hg] at h; exact absurd h (by simp)
    | some v => simp [undeployWebsite, hg, mapHas_mapDelete_self]

/-- Witness for C10: a failed stop of bot 1 and website 2 returns
`false` with the handle gone and the store untouched. -/
theorem C10_stop_failure_removes_handle_witness :
    mapHas sampleState2.runningBots 1 = true ∧
    (stopBot sampleState2 1 5 false).2 = false ∧
    mapHas (stopBot sampleState2 1 5 false).1.runningBots 1 = false ∧
    (stopBot sampleState2 1 5 false).1.bots = sampleState2.bots ∧
    (undeployWebsite sampleState2 2 5 false).2 = false ∧
    mapHas (undeployWebsite sampleState2 2 5 false).1.deployedWebsites 2 = false := by
  have h := C10_stop_failure_removes_handle sampleState2 1 2 5 5
  have hb := h.1 (by decide)
  have hw := h.2 (by decide)
  exact ⟨by decide, hb.1, hb.2.1, hb.2.2.1, hw.1, hw.2.1⟩

/-! ### Claim C3 -/

/-- C3 as stated is false on the code: with no existing handle and a
failing store write, `startBot` reports failure and the record is
marked `error`, but the handle inserted before the failed write stays
in the registry, so the registry is not left unchanged. -/
theorem C3_counterexample :
    (startBot sampleState 1 "uploads/bots/1.zip" "{}" 3 7 false true).2 = .ok false ∧
    getBotStatus (startBot sampleState 1 "uploads/bots/1.zip" "{}" 3 7 false true).1.bots 1
      = some "error" ∧
    mapHas (startBot sampleState 1 "uploads/bots/1.zip" "{}" 3 7 false true).1.runningBots 1
      = true ∧
    (startBot sampleState 1 "uploads/bots/1.zip" "{}" 3 7 false true).1.runningBots
      ≠ sampleState.runningBots := by decide

/-- C3 amended: on a store write failure during a fresh start, the
operation reports failure (`false`) and the record is marked `error`,
but the handle inserted before the write remains in the registry (the
registry gains exactly the new handle). -/
theorem C3_start_failure_marks_error_keeps_handle (s : WorkerState) (botId webId : Nat)
    (path cfg wpath wdom : String) (now pid wnow : Nat) :
    (mapHas s.runningBots botId = false →
      (startBot s botId path cfg now pid false true).2 = .ok false ∧
      getBotStatus (startBot s botId path cfg now pid false true).1.bots botId
        = (getBotStatus s.bots botId).map (fun _ => "error") ∧
      (startBot s botId path cfg now pid false true).1.runningBots
        = s.runningBots ++ [(botId, BotProcess.mk botId now "running" pid)]) ∧
    (mapHas s.deployedWebsites webId = false →
      (deployWebsite s webId wpath wdom wnow false true).2 = .ok none ∧
      getWebsiteStatus (deployWebsite s webId wpath wdom wnow false true).1.websites webId
        = (getWebsiteStatus s.websites webId).map (fun _ => "error") ∧
      mapHas (deployWebsite s webId wpath wdom wnow false true).1.deployedWebsites webId
        = true) := by
  constructor
  · intro h
    have hset := mapSet_of_not_has (BotProcess.mk botId now "running" pid) h
    have hstate : startBot s botId path cfg now pid false true
        = ({ s with
              runningBots := s.runningBots ++ [(botId, BotProcess.mk botId now "running" pid)],
              bots := updateBotStatus s.bots botId "error" now }, .ok false) := by
      simp [startBot, h, hset]
    refine ⟨by rw [hstate], ?_, by rw [hstate]⟩
    rw [hstate]
    exact getBotStatus_update_self s.bots botId "error" now
  · intro h
    have hset := mapSet_of_not_has
      (Deployment.mk webId (if wdom == "" then toString webId ++ ".localhost" else wdom)
        wnow "active"
        ("https://" ++ (if wdom == "" then toString webId ++ ".localhost" else wdom))) h
    have hstate : deployWebsite s webId wpath wdom wnow false true
        = ({ s with
              deployedWebsites := s.deployedWebsites
                ++ [(webId, Deployment.mk webId
                      (if wdom == "" then toString webId ++ ".localhost" else wdom)
                      wnow "active"
                      ("https://" ++ (if wdom == "" then toString webId ++ ".localhost" else wdom)))],
              websites := updateWebsiteStatus s.websites webId "error" wnow }, .ok none) := by
      simp only [deployWebsite, h, Bool.false_eq_true, if_false]
      rw [hset]
      simp
    refine ⟨by rw [hstate], ?_, ?_⟩
    · rw [hstate]
      exact getWebsiteStatus_update_self s.websites webId "error" wnow
    · rw [hstate]
      simp [mapHas_append_single]

/-- Witness for the amended C3 at a concrete state. -/
theorem C3_start_failure_marks_error_keeps_handle_witness :
    mapHas sampleState.runningBots 1 = false ∧
    (startBot sampleState 1 "uploads/bots/1.zip" "{}" 3 7 false true).2 = .ok false ∧
    getBotStatus (startBot sampleState 1 "uploads/bots/1.zip" "{}" 3 7 false true).1.bots 1
      = (getBotStatus sampleState.bots 1).map (fun _ => "error") ∧
    mapHas (deployWebsite sampleState 2 "uploads/websites/2.zip" "example.com" 3 false
        true).1.deployedWebsites 2 = true := by
  have h := C3_start_failure_marks_error_keeps_handle sampleState 1 2 "uploads/bots/1.zip"
    "{}" "uploads/websites/2.zip" "example.com" 3 7 3
  exact ⟨by decide, (h.1 (by decide)).1, (h.1 (by decide)).2.1, (h.2 (by decide)).2.2⟩

/-! ### Claim C7 -/

/-- C7: `restartBot` is `stopBot`, then the fixed 2000 ms cooldown, then
`startBot`, and returns the result of that `startBot`; when no handle
exists, `stopBot` is a no-op returning `false` and `restartBot` still
performs the `startBot` on the unchanged state. -/
theorem C7_restart_stop_cooldown_start (s : WorkerState) (botId : Nat)
    (path cfg : String) (now1 now2 pid : Nat) (stopOk wOk errOk : Bool) :
    restartCooldownMs = 2000 ∧
    restartBot s botId path cfg now1 now2 pid stopOk wOk errOk
      = startBot (stopBot s botId now1 stopOk).1 botId path cfg now2 pid wOk errOk ∧
    (mapHas s.runningBots botId = false →
      stopBot s botId now1 stopOk = (s, false) ∧
      restartBot s botId path cfg now1 now2 pid stopOk wOk errOk
        = startBot s botId path cfg now2 pid wOk errOk) := by
  refine ⟨rfl, rfl, fun h => ?_⟩
  have hstop : stopBot s botId now1 stopOk = (s, false) := by
    simp [stopBot, (mapGet_eq_none_iff s.runningBots botId).mpr h]
  exact ⟨hstop, by simp [restartBot, hstop]⟩

/-- Witness for C7 at a concrete state with no handle for the id. -/
theorem C7_restart_stop_cooldown_start_witness :
    mapHas sampleState.runningBots 1 = false ∧
    stopBot sampleState 1 5 true = (sampleState, false) ∧
    restartBot sampleState 1 "uploads/bots/1.zip" "{}" 5 6 7 true true true
      = startBot sampleState 1 "uploads/bots/1.zip" "{}" 6 7 true true := by
  have h := C7_restart_stop_cooldown_start sampleState 1 "uploads/bots/1.zip" "{}" 5 6 7
    true true true
  exact ⟨by decide, (h.2.2 (by decide)).1, (h.2.2 (by decide)).2⟩

/-! ### Lemmas about single operations used by the sweep claims -/

theorem startBot_registry_mono (s : WorkerState) (botId : Nat) (path cfg : String)
    (now pid : Nat) (wOk errOk : Bool) {i : Nat} (h : mapHas s.runningBots i = true) :
    mapHas (startBot s botId path cfg now pid wOk errOk).1.runningBots i = true := by
  unfold startBot
  by_cases hh : mapHas s.runningBots botId = true
  · simp [hh, h]
  · rw [Bool.not_eq_true] at hh
    simp only [hh, Bool.false_eq_true, if_false]
    cases wOk
    · cases errOk
      · simpa using mapHas_mapSet_mono botId _ h
      · simpa using mapHas_mapSet_mono botId _ h
    · simpa using mapHas_mapSet_mono botId _ h

theorem startBot_inserts (s : WorkerState) (botId : Nat) (path cfg : String)
    (now pid : Nat) (wOk errOk : Bool) (h : mapHas s.runningBots botId = false) :
    mapHas (startBot s botId path cfg now pid wOk errOk).1.runningBots botId = true := by
  unfold startBot
  simp only [h, Bool.false_eq_true, if_false]
  rw [mapSet_of_not_has (BotProcess.mk botId now "running" pid) h]
  cases wOk
  · cases errOk
    · simpa using mapHas_append_single s.runningBots botId _
    · simpa using mapHas_append_single s.runningBots botId _
  · simpa using mapHas_append_single s.runningBots botId _

theorem startBot_errOk_ok (s : WorkerState) (botId : Nat) (path cfg : String)
    (now pid : Nat) (wOk : Bool) :
    ∃ b, (startBot s botId path cfg now pid wOk true).2 = .ok b := by
  unfold startBot
  by_cases hh : mapHas s.runningBots botId = true
  · exact ⟨false, by simp [hh]⟩
  · rw [Bool.not_eq_true] at hh
    cases wOk
    · exact ⟨false, by simp [hh]⟩
    · exact ⟨true, by simp [hh]⟩

theorem startBot_keeps_websites (s : WorkerState) (botId : Nat) (path cfg : String)
    (now pid : Nat) (wOk errOk : Bool) :
    (startBot s botId path cfg now pid wOk errOk).1.deployedWebsites = s.deployedWebsites ∧
    (startBot s botId path cfg now pid wOk errOk).1.websites = s.websites := by
  unfold startBot
  by_cases hh : mapHas s.runningBots botId = true
  · simp [hh]
  · rw [Bool.not_eq_true] at hh
    cases wOk
    · cases errOk <;> simp [hh]
    · simp [hh]

theorem stopBot_keeps_websites (s : WorkerState) (botId now : Nat) (wOk : Bool) :
    (stopBot s botId now wOk).1.deployedWebsites = s.deployedWebsites ∧
    (stopBot s botId now wOk).1.websites = s.websites := by
  unfold stopBot
  cases hg : mapGet s.runningBots botId
  · simp
  · cases wOk <;> simp

theorem deployWebsite_registry_mono (s : WorkerState) (webId : Nat) (path dom : String)
    (now : Nat) (wOk errOk : Bool) {i : Nat} (h : mapHas s.deployedWebsites i = true) :
    mapHas (deployWebsite s webId path dom now wOk errOk).1.deployedWebsites i = true := by
  unfold deployWebsite
  by_cases hh : mapHas s.deployedWebsites webId = true
  · simp [hh, h]
  · rw [Bool.not_eq_true] at hh
    simp only [hh, Bool.false_eq_true, if_false]
    cases wOk
    · cases errOk
      · simpa using mapHas_mapSet_mono webId _ h
      · simpa using mapHas_mapSet_mono webId _ h
    · simpa using mapHas_mapSet_mono webId _ h

theorem deployWebsite_inserts (s : WorkerState) (webId : Nat) (path dom : String)
    (now : Nat) (wOk errOk : Bool) (h : mapHas s.deployedWebsites webId = false) :
    mapHas (deployWebsite s webId path dom now wOk errOk).1.deployedWebsites webId
      = true := by
  unfold deployWebsite
  simp only [h, Bool.false_eq_true, if_false]
  rw [mapSet_of_not_has (Deployment.mk webId
    (if dom == "" then toString webId ++ ".localhost" else dom) now "active"
    ("https://" ++ (if dom == "" then toString webId ++ ".localhost" else dom))) h]
  cases wOk
  · cases errOk
    · simpa using mapHas_append_single s.deployedWebsites webId _
    · simpa using mapHas_append_single s.deployedWebsites webId _
  · simpa using mapHas_append_single s.deployedWebsites webId _

theorem deployWebsite_errOk_ok (s : WorkerState) (webId : Nat) (path dom : String)
    (now : Nat) (wOk : Bool) :
    ∃ b, (deployWebsite s webId path dom now wOk true).2 = .ok b := by
  unfold deployWebsite
  by_cases hh : mapHas s.deployedWebsites webId = true
  · exact ⟨none, by simp [hh]⟩
  · rw [Bool.not_eq_true] at hh
    cases wOk
    · exact ⟨none, by simp [hh]⟩
    · exact ⟨some (Deployment.mk webId
        (if dom == "" then toString webId ++ ".localhost" else dom) now "active"
        ("https://" ++ (if dom == "" then toString webId ++ ".localhost" else dom))),
        by simp [hh]⟩

theorem deployWebsite_keeps_bots (s : WorkerState) (webId : Nat) (path dom : String)
    (now : Nat) (wOk errOk : Bool) :
    (deployWebsite s webId path dom now wOk errOk).1.runningBots = s.runningBots ∧
    (deployWebsite s webId path dom now wOk errOk).1.bots = s.bots := by
  unfold deployWebsite
  by_cases hh : mapHas s.deployedWebsites webId = true
  · simp [hh]
  · rw [Bool.not_eq_true] at hh
    cases wOk
    · cases errOk <;> simp [hh]
    · simp [hh]

/-! ### Lemmas about the reconciliation sweeps -/

theorem reconcileBotsAux_registry_mono (rows : List BotRow) (fl : Nat → StartFlags)
    (k : Nat) {s : WorkerState} {i : Nat} (h : mapHas s.runningBots i = true) :
    mapHas (reconcileBotsAux s rows fl k).1.runningBots i = true := by
  induction rows generalizing s k with
  | nil => simpa [reconcileBotsAux] using h
  | cons r rs ih =>
    simp only [reconcileBotsAux]
    by_cases hr : mapHas s.runningBots r.id = true
    · simp only [hr, if_true]
      exact ih _ h
    · rw [Bool.not_eq_true] at hr
      simp only [hr, Bool.false_eq_true, if_false]
      rcases hs : startBot s r.id r.file_path r.config (fl k).now (fl k).pid
        (fl k).wOk (fl k).errOk with ⟨s2, res⟩
      have hmono := startBot_registry_mono s r.id r.file_path r.config (fl k).now
        (fl k).pid (fl k).wOk (fl k).errOk h
      rw [hs] at hmono
      cases res with
      | ok b => simpa using ih _ hmono
      | error e => simpa using hmono

theorem reconcileBotsAux_no_escape (rows : List BotRow) (fl : Nat → StartFlags)
    (k : Nat) {s : WorkerState} (hok : ∀ j, (fl j).errOk = true) :
    (reconcileBotsAux s rows fl k).2.2 = false := by
  induction rows generalizing s k with
  | nil => simp [reconcileBotsAux]
  | cons r rs ih =>
    simp only [reconcileBotsAux]
    by_cases hr : mapHas s.runningBots r.id = true
    · simp only [hr, if_true]
      exact ih _
    · rw [Bool.not_eq_true] at hr
      simp only [hr, Bool.false_eq_true, if_false]
      rw [hok k]
      rcases hs : startBot s r.id r.file_path r.config (fl k).now (fl k).pid
        (fl k).wOk true with ⟨s2, res⟩
      obtain ⟨b, hb⟩ := startBot_errOk_ok s r.id r.file_path r.config (fl k).now
        (fl k).pid (fl k).wOk
      rw [hs] at hb
      cases res with
      | ok b2 => simpa using ih _
      | error e => exact absurd hb (by simp)

theorem reconcileBotsAux_covers (rows : List BotRow) (fl : Nat → StartFlags)
    (k : Nat) {s : WorkerState} (hok : ∀ j, (fl j).errOk = true) :
    ∀ r ∈ rows, mapHas (reconcileBotsAux s rows fl k).1.runningBots r.id = true := by
  induction rows generalizing s k with
  | nil => intro r hr; cases hr
  | cons r0 rs ih =>
    intro r hr
    simp only [reconcileBotsAux]
    by_cases h0 : mapHas s.runningBots r0.id = true
    · simp only [h0, if_true]
      rcases List.mem_cons.mp hr with hhd | hmem
      · rw [hhd]
        exact reconcileBotsAux_registry_mono rs fl _ h0
      · exact ih _ r hmem
    · rw [Bool.not_eq_true] at h0
      simp only [h0, Bool.false_eq_true, if_false]
      rw [hok k]
      rcases hs : startBot s r0.id r0.file_path r0.config (fl k).now (fl k).pid
        (fl k).wOk true with ⟨s2, res⟩
      obtain ⟨b, hb⟩ := startBot_errOk_ok s r0.id r0.file_path r0.config (fl k).now
        (fl k).pid (fl k).wOk
      rw [hs] at hb
      have hins := startBot_inserts s r0.id r0.file_path r0.config (fl k).now (fl k).pid
        (fl k).wOk true h0
      rw [hs] at hins
      cases res with
      | ok b2 =>
        rcases List.mem_cons.mp hr with hhd | hmem
        · rw [hhd]
          simpa using reconcileBotsAux_registry_mono rs fl _ hins
        · simpa using ih _ r hmem
      | error e => exact absurd hb (by simp)

theorem reconcileBotsAux_trace (rows : List BotRow) (fl : Nat → StartFlags)
    (k : Nat) (s : WorkerState) :
    ∀ c ∈ (reconcileBotsAux s rows fl k).2.1,
      ∃ r, r ∈ rows ∧ c = (r.id, r.file_path, r.config)
        ∧ mapHas s.runningBots r.id = false := by
  induction rows generalizing s k with
  | nil => simp [reconcileBotsAux]
  | cons r0 rs ih =>
    intro c hc
    simp only [reconcileBotsAux] at hc
    by_cases h0 : mapHas s.runningBots r0.id = true
    · simp only [h0, if_true] at hc
      obtain ⟨r, hmem, hceq, habs⟩ := ih _ _ c hc
      exact ⟨r, List.mem_cons_of_mem _ hmem, hceq, habs⟩
    · rw [Bool.not_eq_true] at h0
      simp only [h0, Bool.false_eq_true, if_false] at hc
      rcases hs : startBot s r0.id r0.file_path r0.config (fl k).now (fl k).pid
        (fl k).wOk (fl k).errOk with ⟨s2, res⟩
      rw [hs] at hc
      cases res with
      | ok b =>
        simp only [] at hc
        rcases List.mem_cons.mp hc with hhd | htl
        · exact ⟨r0, List.mem_cons_self _ _, hhd, h0⟩
        · obtain ⟨r, hmem, hceq, habs⟩ := ih _ _ c htl
          refine ⟨r, List.mem_cons_of_mem _ hmem, hceq, ?_⟩
          by_contra habs2
          rw [Bool.not_eq_false] at habs2
          have := startBot_registry_mono s r0.id r0.file_path r0.config (fl k).now
            (fl k).pid (fl k).wOk (fl k).errOk habs2
          rw [hs] at this
          simp only [] at this
          rw [habs] at this
          exact Bool.noConfusion this
      | error e =>
        simp only [List.mem_singleton] at hc
        exact ⟨r0, List.mem_cons_self _ _, hc, h0⟩

theorem reconcileBotsAux_keeps_websites (rows : List BotRow) (fl : Nat → StartFlags)
    (k : Nat) (s : WorkerState) :
    (reconcileBotsAux s rows fl k).1.deployedWebsites = s.deployedWebsites ∧
    (reconcileBotsAux s rows fl k).1.websites = s.websites := by
  induction rows generalizing s k with
  | nil => exact ⟨rfl, rfl⟩
  | cons r rs ih =>
    simp only [reconcileBotsAux]
    by_cases hr : mapHas s.runningBots r.id = true
    · simp only [hr, if_true]
      exact ih _ _
    · rw [Bool.not_eq_true] at hr
      simp only [hr, Bool.false_eq_true, if_false]
      rcases hs : startBot s r.id r.file_path r.config (fl k).now (fl k).pid
        (fl k).wOk (fl k).errOk with ⟨s2, res⟩
      have hkeep := startBot_keeps_websites s r.id r.file_path r.config (fl k).now
        (fl k).pid (fl k).wOk (fl k).errOk
      rw [hs] at hkeep
      cases res with
      | ok b =>
        have hrest := ih (k + 1) s2
        exact ⟨by simpa using hrest.1.trans hkeep.1, by simpa using hrest.2.trans hkeep.2⟩
      | error e => exact ⟨by simpa using hkeep.1, by simpa using hkeep.2⟩

theorem reconcileWebsitesAux_registry_mono (rows : List WebsiteRow)
    (fl : Nat → StartFlags) (k : Nat) {s : WorkerState} {i : Nat}
    (h : mapHas s.deployedWebsites i = true) :
    mapHas (reconcileWebsitesAux s rows fl k).1.deployedWebsites i = true := by
  induction rows generalizing s k with
  | nil => simpa [reconcileWebsitesAux] using h
  | cons r rs ih =>
    simp only [reconcileWebsitesAux]
    by_cases hr : mapHas s.deployedWebsites r.id = true
    · simp only [hr, if_true]
      exact ih _ h
    · rw [Bool.not_eq_true] at hr
      simp only [hr, Bool.false_eq_true, if_false]
      rcases hs : deployWebsite s r.id r.file_path r.domain (fl k).now
        (fl k).wOk (fl k).errOk with ⟨s2, res⟩
      have hmono := deployWebsite_registry_mono s r.id r.file_path r.domain (fl k).now
        (fl k).wOk (fl k).errOk h
      rw [hs] at hmono
      cases res with
      | ok b => simpa using ih _ hmono
      | error e => simpa using hmono

theorem reconcileWebsitesAux_no_escape (rows : List WebsiteRow) (fl : Nat → StartFlags)
    (k : Nat) {s : WorkerState} (hok : ∀ j, (fl j).errOk = true) :
    (reconcileWebsitesAux s rows fl k).2.2 = false := by
  induction rows generalizing s k with
  | nil => simp [reconcileWebsitesAux]
  | cons r rs ih =>
    simp only [reconcileWebsitesAux]
    by_cases hr : mapHas s.deployedWebsites r.id = true
    · simp only [hr, if_true]
      exact ih _
    · rw [Bool.not_eq_true] at hr
      simp only [hr, Bool.false_eq_true, if_false]
      rw [hok k]
      rcases hs : deployWebsite s r.id r.file_path r.domain (fl k).now
        (fl k).wOk true with ⟨s2, res⟩
      obtain ⟨b, hb⟩ := deployWebsite_errOk_ok s r.id r.file_path r.domain (fl k).now
        (fl k).wOk
      rw [hs] at hb
      cases res with
      | ok b2 => simpa using ih _
      | error e => exact absurd hb (by simp)

theorem reconcileWebsitesAux_covers (rows : List WebsiteRow) (fl : Nat → StartFlags)
    (k : Nat) {s : WorkerState} (hok : ∀ j, (fl j).errOk = true) :
    ∀ r ∈ rows, mapHas (reconcileWebsitesAux s rows fl k).1.deployedWebsites r.id
      = true := by
  induction rows generalizing s k with
  | nil => intro r hr; cases hr
  | cons r0 rs ih =>
    intro r hr
    simp only [reconcileWebsitesAux]
    by_cases h0 : mapHas s.deployedWebsites r0.id = true
    · simp only [h0, if_true]
      rcases List.mem_cons.mp hr with hhd | hmem
      · rw [hhd]
        exact reconcileWebsitesAux_registry_mono rs fl _ h0
      · exact ih _ r hmem
    · rw [Bool.not_eq_true] at h0
      simp only [h0, Bool.false_eq_true, if_false]
      rw [hok k]
      rcases hs : deployWebsite s r0.id r0.file_path r0.domain (fl k).now
        (fl k).wOk true with ⟨s2, res⟩
      obtain ⟨b, hb⟩ := deployWebsite_errOk_ok s r0.id r0.file_path r0.domain (fl k).now
        (fl k).wOk
      rw [hs] at hb
      have hins := deployWebsite_inserts s r0.id r0.file_path r0.domain (fl k).now
        (fl k).wOk true h0
      rw [hs] at hins
      cases res with
      | ok b2 =>
        rcases List.mem_cons.mp hr with hhd | hmem
        · rw [hhd]
          simpa using reconcileWebsitesAux_registry_mono rs fl _ hins
        · simpa using ih _ r hmem
      | error e => exact absurd hb (by simp)

theorem reconcileWebsitesAux_trace (rows : List WebsiteRow) (fl : Nat → StartFlags)
    (k : Nat) (s : WorkerState) :
    ∀ c ∈ (reconcileWebsitesAux s rows fl k).2.1,
      ∃ r, r ∈ rows ∧ c = (r.id, r.file_path, r.domain)
        ∧ mapHas s.deployedWebsites r.id = false := by
  induction rows generalizing s k with
  | nil => simp [reconcileWebsitesAux]
  | cons r0 rs ih =>
    intro c hc
    simp only [reconcileWebsitesAux] at hc
    by_cases h0 : mapHas s.deployedWebsites r0.id = true
    · simp only [h0, if_true] at hc
      obtain ⟨r, hmem, hceq, habs⟩ := ih _ _ c hc
      exact ⟨r, List.mem_cons_of_mem _ hmem, hceq, habs⟩
    · rw [Bool.not_eq_true] at h0
      simp only [h0, Bool.false_eq_true, if_false] at hc
      rcases hs : deployWebsite s r0.id r0.file_path r0.domain (fl k).now
        (fl k).wOk (fl k).errOk with ⟨s2, res⟩
      rw [hs] at hc
      cases res with
      | ok b =>
        simp only [] at hc
        rcases List.mem_cons.mp hc with hhd | htl
        · exact ⟨r0, List.mem_cons_self _ _, hhd, h0⟩
        · obtain ⟨r, hmem, hceq, habs⟩ := ih _ _ c htl
          refine ⟨r, List.mem_cons_of_mem _ hmem, hceq, ?_⟩
          by_contra habs2
          rw [Bool.not_eq_false] at habs2
          have := deployWebsite_registry_mono s r0.id r0.file_path r0.domain (fl k).now
            (fl k).wOk (fl k).errOk habs2
          rw [hs] at this
          simp only [] at this
          rw [habs] at this
          exact Bool.noConfusion this
      | error e =>
        simp only [List.mem_singleton] at hc
        exact ⟨r0, List.mem_cons_self _ _, hc, h0⟩

theorem reconcileWebsitesAux_keeps_bots (rows : List WebsiteRow) (fl : Nat → StartFlags)
    (k : Nat) (s : WorkerState) :
    (reconcileWebsitesAux s rows fl k).1.runningBots = s.runningBots ∧
    (reconcileWebsitesAux s rows fl k).1.bots = s.bots := by
  induction rows generalizing s k with
  | nil => exact ⟨rfl, rfl⟩
  | cons r rs ih =>
    simp only [reconcileWebsitesAux]
    by_cases hr : mapHas s.deployedWebsites r.id = true
    · simp only [hr, if_true]
      exact ih _ _
    · rw [Bool.not_eq_true] at hr
      simp only [hr, Bool.false_eq_true, if_false]
      rcases hs : deployWebsite s r.id r.file_path r.domain (fl k).now
        (fl k).wOk (fl k).errOk with ⟨s2, res⟩
      have hkeep := deployWebsite_keeps_bots s r.id r.file_path r.domain (fl k).now
        (fl k).wOk (fl k).errOk
      rw [hs] at hkeep
      cases res with
      | ok b =>
        have hrest := ih (k + 1) s2
        exact ⟨by simpa using hrest.1.trans hkeep.1, by simpa using hrest.2.trans hkeep.2⟩
      | error e => exact ⟨by simpa using hkeep.1, by simpa using hkeep.2⟩

/-! ### Claim C4 -/

/-- Witness state for the reconciliation claims: the store says bot 5
should be running, and the registry is empty. -/
def reconcileSample : WorkerState :=
  { runningBots := []
    deployedWebsites := []
    bots := [⟨5, "running", "uploads/bots/5.zip", "{}", 0⟩]
    websites := [⟨6, "active", "uploads/websites/6.zip", "six.example", 0⟩] }

/-- Constant all-success flag oracle for sweeps. -/
def okFlags : Nat → StartFlags := fun _ => ⟨true, true, 9, 4⟩

/-- C4: one deployment-status cron cycle reads exactly the rows whose
status is the active variant (`running` / `active`), starts every such
record that is absent from the registry using its persisted
`file_path` and `config` / `domain` (the call traces contain only such
records), and never stops or removes an existing handle of either kind. -/
theorem C4_reconciliation_heals (s : WorkerState) (flB flW : Nat → StartFlags)
    (hB : ∀ j, (flB j).errOk = true) (hW : ∀ j, (flW j).errOk = true) :
    (∀ i, mapHas s.runningBots i = true →
      mapHas (reconcileCycle s true true flB flW).1.runningBots i = true) ∧
    (∀ i, mapHas s.deployedWebsites i = true →
      mapHas (reconcileCycle s true true flB flW).1.deployedWebsites i = true) ∧
    (∀ r ∈ activeBotRows s,
      mapHas (reconcileCycle s true true flB flW).1.runningBots r.id = true) ∧
    (∀ r ∈ activeWebsiteRows s,
      mapHas (reconcileCycle s true true flB flW).1.deployedWebsites r.id = true) ∧
    (∀ c ∈ (reconcileCycle s true true flB flW).2.1,
      ∃ r, r ∈ activeBotRows s ∧ c = (r.id, r.file_path, r.config)
        ∧ mapHas s.runningBots r.id = false) ∧
    (∀ c ∈ (reconcileCycle s true true flB flW).2.2,
      ∃ r, r ∈ activeWebsiteRows s ∧ c = (r.id, r.file_path, r.domain)
        ∧ mapHas s.deployedWebsites r.id = false) := by
  have hcyc1 : (reconcileCycle s true true flB flW).1
      = (reconcileWebsitesAux (reconcileBotsAux s (activeBotRows s) flB 0).1
          (activeWebsiteRows (reconcileBotsAux s (activeBotRows s) flB 0).1) flW 0).1 := rfl
  have hcyc2 : (reconcileCycle s true true flB flW).2.1
      = (reconcileBotsAux s (activeBotRows s) flB 0).2.1 := rfl
  have hcyc3 : (reconcileCycle s true true flB flW).2.2
      = (reconcileWebsitesAux (reconcileBotsAux s (activeBotRows s) flB 0).1
          (activeWebsiteRows (reconcileBotsAux s (activeBotRows s) flB 0).1) flW 0).2.1 := rfl
  have hkeepW := reconcileBotsAux_keeps_websites (activeBotRows s) flB 0 s
  have hkeepB := reconcileWebsitesAux_keeps_bots
    (activeWebsiteRows (reconcileBotsAux s (activeBotRows s) flB 0).1) flW 0
    (reconcileBotsAux s (activeBotRows s) flB 0).1
  have hrows : activeWebsiteRows (reconcileBotsAux s (activeBotRows s) flB 0).1
      = activeWebsiteRows s := by
    unfold activeWebsiteRows
    rw [hkeepW.2]
  refine ⟨?_, ?_, ?_, ?_, ?_, ?_⟩
  · intro i h
    rw [hcyc1, hkeepB.1]
    exact reconcileBotsAux_registry_mono (activeBotRows s) flB 0 h
  · intro i h
    rw [hcyc1]
    refine reconcileWebsitesAux_registry_mono _ flW 0 ?_
    rw [hkeepW.1]
    exact h
  · intro r hr
    rw [hcyc1, hkeepB.1]
    exact reconcileBotsAux_covers (activeBotRows s) flB 0 hB r hr
  · intro r hr
    rw [hcyc1]
    refine reconcileWebsitesAux_covers _ flW 0 hW r ?_
    rw [hrows]
    exact hr
  · intro c hc
    rw [hcyc2] at hc
    exact reconcileBotsAux_trace (activeBotRows s) flB 0 s c hc
  · intro c hc
    rw [hcyc3] at hc
    obtain ⟨r, hmem, hceq, habs⟩ := reconcileWebsitesAux_trace _ flW 0 _ c hc
    rw [hrows] at hmem
    rw [hkeepW.1] at habs
    exact ⟨r, hmem, hceq, habs⟩

/-- Witness for C4: from a store with `{id: 5, status: running}` and an
empty registry, one cycle leaves a handle for 5 (and for website 6). -/
theorem C4_reconciliation_heals_witness :
    (∀ j, (okFlags j).errOk = true) ∧
    mapHas reconcileSample.runningBots 5 = false ∧
    mapHas (reconcileCycle reconcileSample true true okFlags okFlags).1.runningBots 5
      = true ∧
    mapHas (reconcileCycle reconcileSample true true okFlags okFlags).1.deployedWebsites 6
      = true := by
  have h := C4_reconciliation_heals reconcileSample okFlags okFlags
    (fun j => rfl) (fun j => rfl)
  refine ⟨fun j => rfl, by decide, ?_, ?_⟩
  · exact h.2.2.1 ⟨5, "running", "uploads/bots/5.zip", "{}", 0⟩ (by decide)
  · exact h.2.2.2.1 ⟨6, "active", "uploads/websites/6.zip", "six.example", 0⟩ (by decide)

/-! ### Claim C8 -/

theorem healthCheckAux_append (l1 l2 : List BotProcess) (fl : Nat → HealthFlags)
    (s : WorkerState) (k : Nat) :
    healthCheckAux s (l1 ++ l2) fl k
      = healthCheckAux (healthCheckAux s l1 fl k) l2 fl (k + l1.length) := by
  induction l1 generalizing s k with
  | nil => simp [healthCheckAux]
  | cons b bs ih =>
    simp only [List.cons_append, healthCheckAux, List.length_cons, List.append_eq]
    rw [ih]
    have harith : k + (bs.length + 1) = k + 1 + bs.length := by omega
    rw [harith]

/-- State for the C8 counterexample: two bot rows marked `running`, an
empty registry. -/
def c8State : WorkerState :=
  { runningBots := []
    deployedWebsites := []
    bots := [⟨1, "running", "uploads/bots/1.zip", "{}", 0⟩,
             ⟨2, "running", "uploads/bots/2.zip", "{}", 0⟩]
    websites := [] }

/-- Flag oracle for the C8 counterexample: every store write fails,
including the `error`-marking write of `startBot`'s catch block. -/
def c8Flags : Nat → StartFlags := fun _ => ⟨false, false, 9, 4⟩

/-- C8 as stated is false on the code: in the reconciliation sweep,
when the store write for bot 1 fails and the subsequent `error`-marking
write also fails, the exception escapes `startBot`, the async callback
rejects, and bot 2 — also active and absent — is never processed. -/
theorem C8_counterexample :
    (⟨2, "running", "uploads/bots/2.zip", "{}", 0⟩ : BotRow) ∈ activeBotRows c8State ∧
    mapHas c8State.runningBots 2 = false ∧
    (reconcileBots c8State c8Flags).2.2 = true ∧
    mapHas (reconcileBots c8State c8Flags).1.runningBots 2 = false := by decide

/-- C8 amended: the health-check sweep is per-entry fault tolerant (it
consumes its snapshot segment by segment with no early exit, whatever
the per-entry faults and failures), and a reconciliation start that
fails by returning `false` does not block the rest of the batch — as
long as the `error`-marking write of the catch block succeeds, the
sweep never escapes and every active record still ends up with a
handle; only a start whose store write and error-marking write both
fail aborts the remainder of that reconciliation batch. -/
theorem C8_sweep_fault_tolerance (s : WorkerState) (fl : Nat → HealthFlags)
    (flB flW : Nat → StartFlags) (l1 l2 : List BotProcess) (k : Nat)
    (hB : ∀ j, (flB j).errOk = true) (hW : ∀ j, (flW j).errOk = true) :
    healthCheckAux s (l1 ++ l2) fl k
      = healthCheckAux (healthCheckAux s l1 fl k) l2 fl (k + l1.length) ∧
    (reconcileBots s flB).2.2 = false ∧
    (reconcileWebsites s flW).2.2 = false ∧
    (∀ r ∈ activeBotRows s, mapHas (reconcileBots s flB).1.runningBots r.id = true) ∧
    (∀ r ∈ activeWebsiteRows s,
      mapHas (reconcileWebsites s flW).1.deployedWebsites r.id = true) := by
  exact ⟨healthCheckAux_append l1 l2 fl s k,
    reconcileBotsAux_no_escape (activeBotRows s) flB 0 hB,
    reconcileWebsitesAux_no_escape (activeWebsiteRows s) flW 0 hW,
    reconcileBotsAux_covers (activeBotRows s) flB 0 hB,
    reconcileWebsitesAux_covers (activeWebsiteRows s) flW 0 hW⟩

/-- Per-entry flags for the health-check witness: every entry is
faulty and its restart fails with both writes failing, exercising the
catch path. -/
def faultyFlags : Nat → HealthFlags := fun _ => ⟨true, true, false, false, true, 1, 2, 3⟩

/-- Witness for the amended C8. -/
theorem C8_sweep_fault_tolerance_witness :
    (∀ j, (okFlags j).errOk = true) ∧
    healthCheckAux reconcileSample
        ([BotProcess.mk 1 0 "running" 9] ++ [BotProcess.mk 3 0 "running" 8]) faultyFlags 0
      = healthCheckAux
          (healthCheckAux reconcileSample [BotProcess.mk 1 0 "running" 9] faultyFlags 0)
          [BotProcess.mk 3 0 "running" 8] faultyFlags 1 ∧
    (reconcileBots reconcileSample okFlags).2.2 = false ∧
    mapHas (reconcileBots reconcileSample okFlags).1.runningBots 5 = true := by
  have h := C8_sweep_fault_tolerance reconcileSample faultyFlags okFlags okFlags
    [BotProcess.mk 1 0 "running" 9] [BotProcess.mk 3 0 "running" 8] 0
    (fun j => rfl) (fun j => rfl)
  refine ⟨fun j => rfl, by simpa using h.1, h.2.1, ?_⟩
  exact h.2.2.2.1 ⟨5, "running", "uploads/bots/5.zip", "{}", 0⟩ (by decide)

/-! ### Claim C5 -/

theorem mapDelete_of_not_has {α : Type} {m : List (Nat × α)} {k : Nat}
    (h : mapHas m k = false) : mapDelete m k = m := by
  induction m with
  | nil => rfl
  | cons p ps ih =>
    simp only [mapHas, List.any_cons, Bool.or_eq_false_iff] at h
    simp only [mapDelete, List.filter_cons]
    rw [show (p.1 != k) = true by simp [bne, h.1]]
    simp only [if_true]
    simp only [mapDelete] at ih
    rw [ih h.2]

theorem mapHas_mapDelete_false_mono {α : Type} {m : List (Nat × α)} {i : Nat}
    (k : Nat) (h : mapHas m i = false) : mapHas (mapDelete m k) i = false := by
  induction m with
  | nil => rfl
  | cons p ps ih =>
    simp only [mapHas, List.any_cons, Bool.or_eq_false_iff] at h
    simp only [mapDelete, List.filter_cons] at ih ⊢
    by_cases hp : (p.1 != k) = true
    · rw [hp]
      simp only [if_true, mapHas, List.any_cons, Bool.or_eq_false_iff]
      simp only [mapHas] at ih
      exact ⟨h.1, ih h.2⟩
    · rw [Bool.not_eq_true] at hp
      rw [hp]
      simp only [Bool.false_eq_true, if_false]
      exact ih h.2

theorem mapHas_mapDelete_ne {α : Type} (m : List (Nat × α)) {i k : Nat} (h : i ≠ k) :
    mapHas (mapDelete m k) i = mapHas m i := by
  induction m with
  | nil => rfl
  | cons p ps ih =>
    simp only [mapDelete, List.filter_cons] at ih ⊢
    by_cases hp : (p.1 != k) = true
    · rw [hp]
      simp only [if_true, mapHas, List.any_cons] at ih ⊢
      rw [ih]
    · rw [Bool.not_eq_true] at hp
      rw [hp]
      simp only [Bool.false_eq_true, if_false]
      have hpk : p.1 = k := by simpa [bne] using hp
      have hpi : (p.1 == i) = false := by
        simp only [hpk, beq_eq_false_iff_ne, ne_eq]
        exact fun hc => h hc.symm
      simp only [mapHas, List.any_cons, hpi, Bool.false_or] at ih ⊢
      exact ih

theorem stopBot_noop (s : WorkerState) (botId now : Nat) (wOk : Bool)
    (h : mapHas s.runningBots botId = false) :
    stopBot s botId now wOk = (s, false) := by
  simp [stopBot, (mapGet_eq_none_iff s.runningBots botId).mpr h]

theorem stopBot_fields (s : WorkerState) (botId now : Nat) (wOk : Bool) :
    (stopBot s botId now wOk).1.runningBots = mapDelete s.runningBots botId ∧
    ((stopBot s botId now wOk).1.bots = s.bots ∨
      (stopBot s botId now wOk).1.bots = updateBotStatus s.bots botId "stopped" now) ∧
    (wOk = true → mapHas s.runningBots botId = true →
      (stopBot s botId now wOk).1.bots = updateBotStatus s.bots botId "stopped" now) := by
  unfold stopBot
  cases hg : mapGet s.runningBots botId with
  | none =>
    refine ⟨?_, Or.inl rfl, ?_⟩
    · rw [mapDelete_of_not_has ((mapGet_eq_none_iff _ _).mp hg)]
    · intro hwk hhas
      rw [(mapGet_eq_none_iff _ _).mp hg] at hhas
      exact Bool.noConfusion hhas
  | some v =>
    cases wOk
    · exact ⟨rfl, Or.inl rfl, fun hc => Bool.noConfusion hc⟩
    · exact ⟨rfl, Or.inr rfl, fun _ _ => rfl⟩

theorem sigtermDrainAux_keeps_websites (l : List BotProcess) (fl : Nat → Nat × Bool)
    (k : Nat) (s : WorkerState) :
    (sigtermDrainAux s l fl k).deployedWebsites = s.deployedWebsites ∧
    (sigtermDrainAux s l fl k).websites = s.websites := by
  induction l generalizing s k with
  | nil => exact ⟨rfl, rfl⟩
  | cons b bs ih =>
    simp only [sigtermDrainAux]
    have hkeep := stopBot_keeps_websites s b.id (fl k).1 (fl k).2
    have hrest := ih (k + 1) (stopBot s b.id (fl k).1 (fl k).2).1
    exact ⟨hrest.1.trans hkeep.1, hrest.2.trans hkeep.2⟩

theorem sigtermDrainAux_empties (l : List BotProcess) (fl : Nat → Nat × Bool) (k : Nat)
    {s : WorkerState}
    (hcov : ∀ p ∈ s.runningBots, p.1 ∈ l.map (fun b => b.id)) :
    (sigtermDrainAux s l fl k).runningBots = [] := by
  induction l generalizing s k with
  | nil =>
    cases hsr : s.runningBots with
    | nil => simpa [sigtermDrainAux] using hsr
    | cons p ps =>
      have := hcov p (by rw [hsr]; exact List.mem_cons_self _ _)
      simp at this
  | cons b bs ih =>
    simp only [sigtermDrainAux]
    apply ih
    intro p hp
    rw [(stopBot_fields s b.id (fl k).1 (fl k).2).1] at hp
    have hp2 := List.mem_filter.mp hp
    have hne : p.1 ≠ b.id := by
      have := hp2.2
      simpa [bne] using this
    have hin := hcov p hp2.1
    simp only [List.map, List.mem_cons] at hin
    rcases hin with heq | hmem
    · exact absurd heq hne
    · simpa using hmem

theorem sigtermDrainAux_frozen (l : List BotProcess) (fl : Nat → Nat × Bool) (k : Nat)
    {s : WorkerState} {id0 : Nat} (hhas : mapHas s.runningBots id0 = false) :
    getBotStatus (sigtermDrainAux s l fl k).bots id0 = getBotStatus s.bots id0 := by
  induction l generalizing s k with
  | nil => rfl
  | cons b bs ih =>
    simp only [sigtermDrainAux]
    have hf := stopBot_fields s b.id (fl k).1 (fl k).2
    have hhas2 : mapHas (stopBot s b.id (fl k).1 (fl k).2).1.runningBots id0 = false := by
      rw [hf.1]
      exact mapHas_mapDelete_false_mono b.id hhas
    have hbots : getBotStatus (stopBot s b.id (fl k).1 (fl k).2).1.bots id0
        = getBotStatus s.bots id0 := by
      by_cases hb : b.id = id0
      · rw [stopBot_noop s b.id (fl k).1 (fl k).2 (hb ▸ hhas)]
      · rcases hf.2.1 with heq | heq
        · rw [heq]
        · rw [heq]
          exact getBotStatus_update_ne s.bots "stopped" (fl k).1 (fun hc => hb hc.symm)
    rw [ih _ hhas2, hbots]

theorem sigtermDrainAux_statuses (l : List BotProcess) (fl : Nat → Nat × Bool) (k : Nat)
    {s : WorkerState} (hw : ∀ j, (fl j).2 = true) :
    ∀ b ∈ l, mapHas s.runningBots b.id = true →
      getBotStatus (sigtermDrainAux s l fl k).bots b.id
        = (getBotStatus s.bots b.id).map (fun _ => "stopped") := by
  induction l generalizing s k with
  | nil => intro b hb; cases hb
  | cons b0 bs ih =>
    intro b hb hhas
    simp only [sigtermDrainAux]
    by_cases h0 : mapHas s.runningBots b0.id = true
    · have hf := stopBot_fields s b0.id (fl k).1 (fl k).2
      have hbots : (stopBot s b0.id (fl k).1 (fl k).2).1.bots
          = updateBotStatus s.bots b0.id "stopped" (fl k).1 := hf.2.2 (hw k) h0
      by_cases hbid : b.id = b0.id
      · have hhas2 : mapHas (stopBot s b0.id (fl k).1 (fl k).2).1.runningBots b.id
            = false := by
          rw [hf.1, hbid]
          exact mapHas_mapDelete_self _ _
        have hfrozen := sigtermDrainAux_frozen bs fl (k + 1) hhas2
        rw [hfrozen, hbots, hbid]
        exact getBotStatus_update_self s.bots b0.id "stopped" (fl k).1
      · have hhas2 : mapHas (stopBot s b0.id (fl k).1 (fl k).2).1.runningBots b.id
            = true := by
          rw [hf.1, mapHas_mapDelete_ne s.runningBots hbid]
          exact hhas
        rcases List.mem_cons.mp hb with hhd | hmem
        · rw [hhd] at hbid
          exact absurd rfl hbid
        · have hres := ih (k + 1) b hmem hhas2
          rw [hres, hbots]
          rw [getBotStatus_update_ne s.bots "stopped" (fl k).1 hbid]
    · rw [Bool.not_eq_true] at h0
      rw [stopBot_noop s b0.id (fl k).1 (fl k).2 h0]
      rcases List.mem_cons.mp hb with hhd | hmem
      · rw [hhd] at hhas
        exact Bool.noConfusion (h0.symm.trans hhas)
      · exact ih _ b hmem hhas

/-- C5 as stated is false on the code: the SIGTERM handler drains only
bots.  With bot 1 running and website 2 deployed, after the handler the
website registry still holds its entry with persisted status `active`,
and the SIGINT handler exits without draining anything at all. -/
theorem C5_counterexample :
    (sigtermHandler sampleState2 (fun _ => (5, true))).1.runningBots = [] ∧
    (sigtermHandler sampleState2 (fun _ => (5, true))).1.deployedWebsites
      = sampleState2.deployedWebsites ∧
    sampleState2.deployedWebsites ≠ [] ∧
    getWebsiteStatus (sigtermHandler sampleState2 (fun _ => (5, true))).1.websites 2
      = some "active" ∧
    sigintHandler sampleState2 = (sampleState2, 0) := by decide

/-- State for the C5 witness: two running bots and one deployed
website, with matching store rows. -/
def sampleState3 : WorkerState :=
  { runningBots := [(1, BotProcess.mk 1 0 "running" 9), (3, BotProcess.mk 3 0 "running" 4)]
    deployedWebsites := [(2, Deployment.mk 2 "example.com" 0 "active" "https://example.com")]
    bots := [⟨1, "running", "uploads/bots/1.zip", "{}", 0⟩,
             ⟨3, "running", "uploads/bots/3.zip", "{}", 0⟩]
    websites := [⟨2, "active", "uploads/websites/2.zip", "example.com", 0⟩] }

/-- Write-success oracle whose first store write fails and the rest
succeed. -/
def mixedFlags : Nat → Nat × Bool := fun j => (5, j != 0)

/-- C5 amended: on SIGTERM the handler snapshots the bot registry and
stops every bot, tolerating individual store-write failures without
aborting the drain — for every pattern of write failures the bot
registry ends empty and the process exits with code 0 after every entry
was attempted; when the store writes succeed, every drained bot's
persisted status is `stopped`.  Website handles are not drained: the
website registry and table are untouched.  SIGINT exits immediately
without draining. -/
theorem C5_sigterm_drains_bots_only (s : WorkerState) (fl : Nat → Nat × Bool)
    (hwf : ∀ p ∈ s.runningBots, p.2.id = p.1) :
    (sigtermHandler s fl).1.runningBots = [] ∧
    (sigtermHandler s fl).1.deployedWebsites = s.deployedWebsites ∧
    (sigtermHandler s fl).1.websites = s.websites ∧
    (sigtermHandler s fl).2 = 0 ∧
    sigintHandler s = (s, 0) ∧
    ((∀ j, (fl j).2 = true) →
      ∀ b ∈ getRunningBots s,
        getBotStatus (sigtermHandler s fl).1.bots b.id
          = (getBotStatus s.bots b.id).map (fun _ => "stopped")) := by
  have hcov : ∀ p ∈ s.runningBots, p.1 ∈ (getRunningBots s).map (fun b => b.id) := by
    intro p hp
    have h1 : p.2 ∈ getRunningBots s := List.mem_map.mpr ⟨p, hp, rfl⟩
    exact List.mem_map.mpr ⟨p.2, h1, hwf p hp⟩
  refine ⟨sigtermDrainAux_empties (getRunningBots s) fl 0 hcov,
    (sigtermDrainAux_keeps_websites (getRunningBots s) fl 0 s).1,
    (sigtermDrainAux_keeps_websites (getRunningBots s) fl 0 s).2, rfl, rfl, ?_⟩
  intro hw b hb
  apply sigtermDrainAux_statuses (getRunningBots s) fl 0 hw b hb
  obtain ⟨p, hp, rfl⟩ := List.mem_map.mp hb
  rw [hwf p hp]
  simp only [mapHas, List.any_eq_true]
  exact ⟨p, hp, by simp⟩

/-- Witness for the amended C5: with the first store write failing, the
drain still removes both bots, leaves the website registry untouched
and exits 0 — and the bot after the failing one was still stopped and
persisted; with all writes succeeding, the drained bot's status is
persisted as `stopped`. -/
theorem C5_sigterm_drains_bots_only_witness :
    mixedFlags 0 = (5, false) ∧
    (sigtermHandler sampleState3 mixedFlags).1.runningBots = [] ∧
    (sigtermHandler sampleState3 mixedFlags).1.deployedWebsites
      = sampleState3.deployedWebsites ∧
    (sigtermHandler sampleState3 mixedFlags).2 = 0 ∧
    getBotStatus (sigtermHandler sampleState3 mixedFlags).1.bots 3 = some "stopped" ∧
    getBotStatus (sigtermHandler sampleState3 (fun _ => (5, true))).1.bots 1
      = (getBotStatus sampleState3.bots 1).map (fun _ => "stopped") := by
  have h := C5_sigterm_drains_bots_only sampleState3 mixedFlags (by decide)
  have h2 := C5_sigterm_drains_bots_only sampleState3 (fun _ => (5, true)) (by decide)
  exact ⟨rfl, h.1, h.2.1, h.2.2.2.1, by decide,
    h2.2.2.2.2.2 (fun j => rfl) (BotProcess.mk 1 0 "running" 9) (by decide)⟩

/-! ### Claim C6 -/

/-- Nine pre-existing backup snapshots, in ascending timestamp order. -/
def backupFiles9 : List String :=
  ["database-backup-2025-01-01T00-00-00-000Z.sqlite",
   "database-backup-2025-01-02T00-00-00-000Z.sqlite",
   "database-backup-2025-01-03T00-00-00-000Z.sqlite",
   "database-backup-2025-01-04T00-00-00-000Z.sqlite",
   "database-backup-2025-01-05T00-00-00-000Z.sqlite",
   "database-backup-2025-01-06T00-00-00-000Z.sqlite",
   "database-backup-2025-01-07T00-00-00-000Z.sqlite",
   "database-backup-2025-01-08T00-00-00-000Z.sqlite",
   "database-backup-2025-01-09T00-00-00-000Z.sqlite"]

/-- Timestamp of the snapshot the backup task itself creates, newer
than all nine pre-existing ones. -/
def backupTs9 : String := "2025-02-01T00-00-00-000Z"

set_option maxRecDepth 4000 in
/-- `charListLtb` is irreflexive. -/
theorem charListLtb_irrefl (l : List Char) : charListLtb l l = false := by
  induction l with
  | nil => rfl
  | cons a as ih => simp [charListLtb, Nat.lt_irrefl, ih]

/-- `charListLtb` is transitive. -/
theorem charListLtb_trans {a b c : List Char} (h1 : charListLtb a b = true)
    (h2 : charListLtb b c = true) : charListLtb a c = true := by
  induction a generalizing b c with
  | nil =>
    cases b with
    | nil => exact absurd h1 (by simp [charListLtb])
    | cons y ys =>
      cases c with
      | nil => exact absurd h2 (by simp [charListLtb])
      | cons z zs => simp [charListLtb]
  | cons x xs ih =>
    cases b with
    | nil => exact absurd h1 (by simp [charListLtb])
    | cons y ys =>
      cases c with
      | nil => exact absurd h2 (by simp [charListLtb])
      | cons z zs =>
        simp only [charListLtb] at h1 h2 ⊢
        by_cases hxy : x.toNat < y.toNat
        · by_cases hyz : y.toNat < z.toNat
          · simp [Nat.lt_trans hxy hyz]
          · by_cases hzy : z.toNat < y.toNat
            · rw [if_neg hyz, if_pos hzy] at h2
              exact Bool.noConfusion h2
            · have heq : y.toNat = z.toNat := by omega
              have hxz : x.toNat < z.toNat := by omega
              simp [hxz]
        · by_cases hyx : y.toNat < x.toNat
          · rw [if_neg hxy, if_pos hyx] at h1
            exact Bool.noConfusion h1
          · have hxyeq : x.toNat = y.toNat := by omega
            rw [if_neg hxy, if_neg hyx] at h1
            by_cases hyz : y.toNat < z.toNat
            · have hxz : x.toNat < z.toNat := by omega
              simp [hxz]
            · by_cases hzy : z.toNat < y.toNat
              · rw [if_neg hyz, if_pos hzy] at h2
                exact Bool.noConfusion h2
              · rw [if_neg hyz, if_neg hzy] at h2
                rw [if_neg (by omega : ¬x.toNat < z.toNat),
                  if_neg (by omega : ¬z.toNat < x.toNat)]
                exact ih h1 h2

/-- `charListLtb` is asymmetric. -/
theorem charListLtb_asymm {a b : List Char} (h : charListLtb a b = true) :
    charListLtb b a = false := by
  by_contra hc
  rw [Bool.not_eq_false] at hc
  have := charListLtb_trans h hc
  rw [charListLtb_irrefl] at this
  exact Bool.noConfusion this

/-- Two different character lists are `charListLtb`-comparable. -/
theorem charListLtb_connex {a b : List Char} (h : a ≠ b) :
    charListLtb a b = true ∨ charListLtb b a = true := by
  induction a generalizing b with
  | nil =>
    cases b with
    | nil => exact absurd rfl h
    | cons y ys => left; rfl
  | cons x xs ih =>
    cases b with
    | nil => right; rfl
    | cons y ys =>
      rcases Nat.lt_trichotomy x.toNat y.toNat with hlt | heq | hgt
      · left
        simp [charListLtb, hlt]
      · have hxy : x = y := Char.eq_of_val_eq (UInt32.ext heq)
        subst hxy
        have htails : xs ≠ ys := fun hc => h (by rw [hc])
        rcases ih htails with h1 | h1
        · left
          simp [charListLtb, Nat.lt_irrefl, h1]
        · right
          simp [charListLtb, Nat.lt_irrefl, h1]
      · right
        simp [charListLtb, hgt]

theorem strLtb_irrefl (a : String) : strLtb a a = false := charListLtb_irrefl a.data

theorem strLtb_trans {a b c : String} (h1 : strLtb a b = true)
    (h2 : strLtb b c = true) : strLtb a c = true := charListLtb_trans h1 h2

theorem strLtb_asymm {a b : String} (h : strLtb a b = true) :
    strLtb b a = false := charListLtb_asymm h

theorem strLtb_connex {a b : String} (h : a ≠ b) :
    strLtb a b = true ∨ strLtb b a = true :=
  charListLtb_connex (fun hc => h (String.ext hc))

theorem mem_insertSorted {z x : String} {l : List String} :
    z ∈ insertSorted x l ↔ z = x ∨ z ∈ l := by
  induction l with
  | nil => simp [insertSorted]
  | cons y ys ih =>
    simp only [insertSorted]
    by_cases h : strLtb y x = true
    · rw [if_pos h]
      simp only [List.mem_cons, ih]
      tauto
    · rw [if_neg h]
      simp only [List.mem_cons]

theorem insertSorted_perm (x : String) (l : List String) :
    (insertSorted x l).Perm (x :: l) := by
  induction l with
  | nil => exact List.Perm.refl _
  | cons y ys ih =>
    simp only [insertSorted]
    by_cases h : strLtb y x = true
    · rw [if_pos h]
      exact (List.Perm.cons y ih).trans (List.Perm.swap x y ys)
    · rw [if_neg h]

/-- `sortStrings` permutes its input. -/
theorem sortStrings_perm (l : List String) : (sortStrings l).Perm l := by
  induction l with
  | nil => exact List.Perm.refl _
  | cons x xs ih =>
    simp only [sortStrings]
    exact (insertSorted_perm x (sortStrings xs)).trans (List.Perm.cons x ih)

theorem insertSorted_pairwise {x : String} {l : List String}
    (h : l.Pairwise (fun a b => strLtb b a = false)) :
    (insertSorted x l).Pairwise (fun a b => strLtb b a = false) := by
  induction l with
  | nil => simp [insertSorted]
  | cons y ys ih =>
    rw [List.pairwise_cons] at h
    simp only [insertSorted]
    by_cases hyx : strLtb y x = true
    · rw [if_pos hyx]
      rw [List.pairwise_cons]
      refine ⟨?_, ih h.2⟩
      intro z hz
      rcases mem_insertSorted.mp hz with rfl | hzys
      · exact strLtb_asymm hyx
      · exact h.1 z hzys
    · rw [if_neg hyx]
      rw [Bool.not_eq_true] at hyx
      rw [List.pairwise_cons]
      constructor
      · intro z hz
        rcases List.mem_cons.mp hz with rfl | hzys
        · exact hyx
        · by_contra hc
          rw [Bool.not_eq_false] at hc
          have hzy := h.1 z hzys
          by_cases hzyeq : z = y
          · rw [hzyeq] at hc
            rw [hc] at hyx
            exact Bool.noConfusion hyx
          · rcases strLtb_connex hzyeq with h1 | h1
            · rw [h1] at hzy
              exact Bool.noConfusion hzy
            · have := strLtb_trans h1 hc
              rw [this] at hyx
              exact Bool.noConfusion hyx
      · rw [List.pairwise_cons]
        exact ⟨h.1, h.2⟩

/-- `sortStrings` sorts ascending: in the result, no later element is
strictly below an earlier one. -/
theorem sortStrings_pairwise (l : List String) :
    (sortStrings l).Pairwise (fun a b => strLtb b a = false) := by
  induction l with
  | nil => exact List.Pairwise.nil
  | cons x xs ih => exact insertSorted_pairwise ih

theorem contains_eq_false_iff (L : List String) (r : String) :
    (L.contains r = false) ↔ r ∉ L := by simp

theorem contains_eq_true_iff (L : List String) (r : String) :
    (L.contains r = true) ↔ r ∈ L := by simp

/-- The pruning step of the backup task, over an arbitrary directory
listing `l` of 10 names: the deleted files are 3, the remaining 7, every
deleted file sorts strictly before every remaining file (deletion is by
timestamp ordering, not listing order), nothing else is lost or
invented, and an element of `l` that every other element sorts before is
kept. -/
theorem prune_takes_oldest (l sorted deleted remaining : List String)
    (hs : sorted = sortStrings l) (hd : deleted = sorted.take 3)
    (hr : remaining = l.filter (fun f => !(deleted.contains f)))
    (hnd : l.Nodup) (hl : l.length = 10) :
    deleted.length = 3 ∧ remaining.length = 7 ∧
    (∀ d ∈ deleted, ∀ r ∈ remaining, strLtb d r = true) ∧
    (remaining ++ deleted).Perm l ∧
    (∀ x ∈ l, (∀ f ∈ l, f ≠ x → strLtb f x = true) → x ∈ remaining) := by
  subst hs hd hr
  have hperm := sortStrings_perm l
  have hpw := sortStrings_pairwise l
  have hnds : (sortStrings l).Nodup := hperm.nodup_iff.mpr hnd
  have hlens : (sortStrings l).length = 10 := hperm.length_eq.trans hl
  have td := List.take_append_drop 3 (sortStrings l)
  have hpw2 : ((sortStrings l).take 3 ++ (sortStrings l).drop 3).Pairwise
      (fun a b => strLtb b a = false) := by
    rw [td]
    exact hpw
  have hcross := (List.pairwise_append.mp hpw2).2.2
  have hnds2 : ((sortStrings l).take 3 ++ (sortStrings l).drop 3).Nodup := by
    rw [td]
    exact hnds
  have hdisj := List.disjoint_of_nodup_append hnds2
  have htklen : ((sortStrings l).take 3).length = 3 := by
    simp [List.length_take, hlens]
  have hdropof : ∀ r, r ∈ l → r ∉ (sortStrings l).take 3 → r ∈ (sortStrings l).drop 3 := by
    intro r hrl hrn
    have hmem : r ∈ (sortStrings l).take 3 ++ (sortStrings l).drop 3 := by
      rw [td]
      exact hperm.mem_iff.mpr hrl
    rcases List.mem_append.mp hmem with hmem2 | hmem2
    · exact absurd hmem2 hrn
    · exact hmem2
  have hremmem : ∀ r, r ∈ l.filter (fun f => !(((sortStrings l).take 3).contains f))
      ↔ r ∈ l ∧ r ∉ (sortStrings l).take 3 := by
    intro r
    rw [List.mem_filter]
    constructor
    · rintro ⟨h1, h2⟩
      rw [Bool.not_eq_true'] at h2
      exact ⟨h1, (contains_eq_false_iff _ r).mp h2⟩
    · rintro ⟨h1, h2⟩
      refine ⟨h1, ?_⟩
      rw [Bool.not_eq_true']
      exact (contains_eq_false_iff _ r).mpr h2
  have hord : ∀ d ∈ (sortStrings l).take 3,
      ∀ r ∈ l.filter (fun f => !(((sortStrings l).take 3).contains f)),
        strLtb d r = true := by
    intro d hdm r hrm
    have hr2 := (hremmem r).mp hrm
    have hrd := hdropof r hr2.1 hr2.2
    have hne : d ≠ r := fun hc => hdisj hdm (hc ▸ hrd)
    rcases strLtb_connex hne with h1 | h1
    · exact h1
    · have hrc := hcross d hdm r hrd
      rw [h1] at hrc
      exact Bool.noConfusion hrc
  have hfd : (l.filter (fun x => ((sortStrings l).take 3).contains x)).Perm
      ((sortStrings l).take 3) := by
    rw [List.perm_ext_iff_of_nodup (List.Nodup.filter _ hnd)
      (List.Nodup.sublist (List.take_sublist 3 _) hnds)]
    intro a
    rw [List.mem_filter]
    constructor
    · rintro ⟨h1, h2⟩
      exact (contains_eq_true_iff _ a).mp h2
    · intro ha
      refine ⟨?_, (contains_eq_true_iff _ a).mpr ha⟩
      exact hperm.mem_iff.mp ((List.take_sublist 3 _).subset ha)
  have hbig : (l.filter (fun f => !(((sortStrings l).take 3).contains f))
      ++ (sortStrings l).take 3).Perm l := by
    have hp1 := List.filter_append_perm
      (fun f => !(((sortStrings l).take 3).contains f)) l
    have hneg : (l.filter (fun x => !((fun f => !(((sortStrings l).take 3).contains f)) x)))
        = (l.filter (fun x => ((sortStrings l).take 3).contains x)) := by
      apply List.filter_congr
      intro x hx
      simp
    rw [hneg] at hp1
    exact (List.Perm.append_left _ hfd.symm).trans hp1
  have hrlen : (l.filter (fun f => !(((sortStrings l).take 3).contains f))).length = 7 := by
    have hlen2 := hbig.length_eq
    rw [List.length_append, htklen, hl] at hlen2
    omega
  refine ⟨htklen, hrlen, hord, hbig, ?_⟩
  intro x hx hmaxx
  have hxnot : x ∉ (sortStrings l).take 3 := by
    intro hmem
    have hdroplen : ((sortStrings l).drop 3).length = 7 := by
      rw [List.length_drop, hlens]
    obtain ⟨r, hrd⟩ : ∃ r, r ∈ (sortStrings l).drop 3 := by
      cases hdd : (sortStrings l).drop 3 with
      | nil =>
        rw [hdd] at hdroplen
        exact absurd hdroplen (by simp)
      | cons r rs => exact ⟨r, List.mem_cons_self _ _⟩
    have hrl : r ∈ l := hperm.mem_iff.mp ((List.drop_sublist 3 _).subset hrd)
    have hrx : r ≠ x := fun hc => hdisj hmem (hc ▸ hrd)
    have h1 := hmaxx r hrl hrx
    have h2 := hcross x hmem r hrd
    rw [h1] at h2
    exact Bool.noConfusion h2
  exact (hremmem x).mpr ⟨hx, hxnot⟩

/-- C6 as stated is false on the code: from 9 pre-existing snapshots
the task first writes a 10th, then keeps the newest 7, so the 3 oldest
pre-existing snapshots are deleted, not 2 (exactly 7 do remain). -/
theorem C6_counterexample :
    backupFiles9.length = 9 ∧
    (backupTask backupFiles9 backupTs9).1.length = 7 ∧
    (backupTask backupFiles9 backupTs9).2.length = 3 ∧
    (backupTask backupFiles9 backupTs9).2
      = ["database-backup-2025-01-01T00-00-00-000Z.sqlite",
         "database-backup-2025-01-02T00-00-00-000Z.sqlite",
         "database-backup-2025-01-03T00-00-00-000Z.sqlite"] := by decide

/-- C6 amended: with 9 distinct pre-existing snapshots, listed in any
directory order, and the task's new snapshot sorting after all of them,
the backup task deletes exactly 3 files and keeps 7 including the new
snapshot; every deleted file sorts strictly before every kept file by
name/timestamp ordering (so the deleted ones are the 3 oldest,
regardless of listing order), and kept plus deleted is exactly the
original directory content. -/
theorem C6_backup_retention (files : List String) (ts : String)
    (h9 : files.length = 9)
    (hpre : ∀ f ∈ files ++ [backupName ts], strStartsWith f backupStem = true)
    (hnd : (files ++ [backupName ts]).Nodup)
    (hmax : ∀ f ∈ files, strLtb f (backupName ts) = true) :
    (backupTask files ts).2.length = 3 ∧
    (backupTask files ts).1.length = 7 ∧
    backupName ts ∈ (backupTask files ts).1 ∧
    (∀ d ∈ (backupTask files ts).2, ∀ r ∈ (backupTask files ts).1,
      strLtb d r = true) ∧
    ((backupTask files ts).1 ++ (backupTask files ts).2).Perm
      (files ++ [backupName ts]) := by
  have hfilter : (files ++ [backupName ts]).filter (fun f => strStartsWith f backupStem)
      = files ++ [backupName ts] := List.filter_eq_self.mpr hpre
  have hlen10 : (files ++ [backupName ts]).length = 10 := by
    simp [h9]
  have hslen : (sortStrings (files ++ [backupName ts])).length = 10 :=
    (sortStrings_perm _).length_eq.trans hlen10
  have hbt : backupTask files ts
      = ((files ++ [backupName ts]).filter
          (fun f => !(((sortStrings (files ++ [backupName ts])).take 3).contains f)),
        (sortStrings (files ++ [backupName ts])).take 3) := by
    unfold backupTask
    simp only [hfilter, hslen, hlen10]
    rw [if_pos (by omega)]
  obtain ⟨hl3, hl7, hord, hpm, hsurv⟩ := prune_takes_oldest (files ++ [backupName ts])
    (sortStrings (files ++ [backupName ts]))
    ((sortStrings (files ++ [backupName ts])).take 3)
    ((files ++ [backupName ts]).filter
      (fun f => !(((sortStrings (files ++ [backupName ts])).take 3).contains f)))
    rfl rfl rfl hnd hlen10
  rw [hbt]
  refine ⟨hl3, hl7, ?_, hord, hpm⟩
  apply hsurv
  · simp
  · intro f hf hfne
    rcases List.mem_append.mp hf with h | h
    · exact hmax f h
    · simp only [List.mem_singleton] at h
      exact absurd h hfne

/-- The nine snapshots of `backupFiles9`, deliberately listed out of
timestamp order, to show deletion is by timestamp ordering and not by
directory listing order. -/
def backupFiles9Shuffled : List String :=
  ["database-backup-2025-01-07T00-00-00-000Z.sqlite",
   "database-backup-2025-01-02T00-00-00-000Z.sqlite",
   "database-backup-2025-01-09T00-00-00-000Z.sqlite",
   "database-backup-2025-01-01T00-00-00-000Z.sqlite",
   "database-backup-2025-01-05T00-00-00-000Z.sqlite",
   "database-backup-2025-01-08T00-00-00-000Z.sqlite",
   "database-backup-2025-01-03T00-00-00-000Z.sqlite",
   "database-backup-2025-01-06T00-00-00-000Z.sqlite",
   "database-backup-2025-01-04T00-00-00-000Z.sqlite"]

set_option maxRecDepth 8000 in
/-- Witness for the amended C6: the directory listing is shuffled, yet
the three deleted files are the three chronologically oldest. -/
theorem C6_backup_retention_witness :
    (backupTask backupFiles9Shuffled backupTs9).2
      = ["database-backup-2025-01-01T00-00-00-000Z.sqlite",
         "database-backup-2025-01-02T00-00-00-000Z.sqlite",
         "database-backup-2025-01-03T00-00-00-000Z.sqlite"] ∧
    (backupTask backupFiles9Shuffled backupTs9).1.length = 7 ∧
    backupName backupTs9 ∈ (backupTask backupFiles9Shuffled backupTs9).1 ∧
    (∀ d ∈ (backupTask backupFiles9Shuffled backupTs9).2,
      ∀ r ∈ (backupTask backupFiles9Shuffled backupTs9).1, strLtb d r = true) := by
  have h := C6_backup_retention backupFiles9Shuffled backupTs9 (by decide) (by decide)
    (by decide) (by decide)
  exact ⟨by decide, h.2.1, h.2.2.1, h.2.2.2.1⟩

/-! ### Claim C9 -/

/-- Keys of a registry map are pairwise distinct. -/
def keysNodup {α : Type} (m : List (Nat × α)) : Prop :=
  (m.map (fun p => p.1)).Nodup

instance keysNodupDecidable {α : Type} (m : List (Nat × α)) :
    Decidable (keysNodup m) := by
  unfold keysNodup
  infer_instance

theorem not_mem_keys_of_not_has {α : Type} {m : List (Nat × α)} {k : Nat}
    (h : mapHas m k = false) : k ∉ m.map (fun p => p.1) := by
  intro hmem
  obtain ⟨p, hp, hpk⟩ := List.mem_map.mp hmem
  simp only [mapHas] at h
  rw [List.any_eq_false] at h
  exact h p hp (by simp [hpk])

theorem keys_mapSet_of_has {α : Type} (m : List (Nat × α)) (k : Nat) (v : α)
    (h : mapHas m k = true) :
    (mapSet m k v).map (fun p => p.1) = m.map (fun p => p.1) := by
  simp only [mapSet, h, if_true]
  rw [List.map_map]
  apply List.map_congr_left
  intro p hp
  by_cases hpk : p.1 = k <;> simp [hpk]

theorem keysNodup_mapSet {α : Type} {m : List (Nat × α)} (k : Nat) (v : α)
    (h : keysNodup m) : keysNodup (mapSet m k v) := by
  by_cases hh : mapHas m k = true
  · unfold keysNodup
    rw [keys_mapSet_of_has m k v hh]
    exact h
  · rw [Bool.not_eq_true] at hh
    rw [mapSet_of_not_has v hh]
    unfold keysNodup
    rw [List.map_append]
    refine List.Nodup.append h (List.nodup_singleton k) ?_
    intro a ha hb
    simp only [List.map_cons, List.map_nil, List.mem_singleton] at hb
    rw [hb] at ha
    exact not_mem_keys_of_not_has hh ha

theorem keysNodup_mapDelete {α : Type} {m : List (Nat × α)} (k : Nat)
    (h : keysNodup m) : keysNodup (mapDelete m k) := by
  unfold keysNodup mapDelete
  exact List.Nodup.sublist ((List.filter_sublist m).map (fun p => p.1)) h

theorem startBot_keysNodup (s : WorkerState) (botId : Nat) (path cfg : String)
    (now pid : Nat) (wOk errOk : Bool) (h : keysNodup s.runningBots) :
    keysNodup (startBot s botId path cfg now pid wOk errOk).1.runningBots := by
  unfold startBot
  by_cases hh : mapHas s.runningBots botId = true
  · simpa [hh] using h
  · rw [Bool.not_eq_true] at hh
    simp only [hh, Bool.false_eq_true, if_false]
    cases wOk
    · cases errOk
      · simpa using keysNodup_mapSet botId _ h
      · simpa using keysNodup_mapSet botId _ h
    · simpa using keysNodup_mapSet botId _ h

theorem stopBot_keysNodup (s : WorkerState) (botId now : Nat) (wOk : Bool)
    (h : keysNodup s.runningBots) :
    keysNodup (stopBot s botId now wOk).1.runningBots := by
  rw [(stopBot_fields s botId now wOk).1]
  exact keysNodup_mapDelete botId h

theorem restartBot_keysNodup (s : WorkerState) (botId : Nat) (path cfg : String)
    (now1 now2 pid : Nat) (stopOk wOk errOk : Bool) (h : keysNodup s.runningBots) :
    keysNodup (restartBot s botId path cfg now1 now2 pid stopOk wOk errOk).1.runningBots := by
  unfold restartBot
  exact startBot_keysNodup _ botId path cfg now2 pid wOk errOk
    (stopBot_keysNodup s botId now1 stopOk h)

theorem deployWebsite_keysNodup (s : WorkerState) (webId : Nat) (path dom : String)
    (now : Nat) (wOk errOk : Bool) (h : keysNodup s.deployedWebsites) :
    keysNodup (deployWebsite s webId path dom now wOk errOk).1.deployedWebsites := by
  unfold deployWebsite
  by_cases hh : mapHas s.deployedWebsites webId = true
  · simpa [hh] using h
  · rw [Bool.not_eq_true] at hh
    simp only [hh, Bool.false_eq_true, if_false]
    cases wOk
    · cases errOk
      · simpa using keysNodup_mapSet webId _ h
      · simpa using keysNodup_mapSet webId _ h
    · simpa using keysNodup_mapSet webId _ h

theorem undeployWebsite_keysNodup (s : WorkerState) (webId now : Nat) (wOk : Bool)
    (h : keysNodup s.deployedWebsites) :
    keysNodup (undeployWebsite s webId now wOk).1.deployedWebsites := by
  unfold undeployWebsite
  cases hg : mapGet s.deployedWebsites webId with
  | none => exact h
  | some v =>
    cases wOk
    · simpa using keysNodup_mapDelete webId h
    · simpa using keysNodup_mapDelete webId h

/-- Initial state of the race scenario: bot 5 running, with its store
row marked `running`. -/
def raceInit : WorkerState :=
  { runningBots := [(5, BotProcess.mk 5 0 "running" 11)]
    deployedWebsites := []
    bots := [⟨5, "running", "uploads/bots/5.zip", "{}", 0⟩]
    websites := [] }

/-- An interleaving the unsynchronized source permits: thread T1 runs
`restartBot(5)`; its `stopBot` completes, T1 then parks on the 2000 ms
cooldown `await`; during that window thread T2's `startBot(5)` runs to
completion; T1 then resumes with its own `startBot(5)`.  Returns the
final state, T1's restart result and T2's start result. -/
def raceInterleaved : WorkerState × Except Unit Bool × Except Unit Bool :=
  let r1 := stopBot raceInit 5 1 true
  let r2 := startBot r1.1 5 "uploads/bots/5.zip" "{}" 2 12 true true
  let r3 := startBot r2.1 5 "uploads/bots/5.zip" "{}" 3 13 true true
  (r3.1, r3.2, r2.2)

/-- Serial order 1: T1's whole `restartBot(5)` runs first, then T2's
`startBot(5)`. -/
def raceSerialRestartFirst : WorkerState × Except Unit Bool × Except Unit Bool :=
  let r1 := restartBot raceInit 5 "uploads/bots/5.zip" "{}" 1 3 13 true true true
  let r2 := startBot r1.1 5 "uploads/bots/5.zip" "{}" 2 12 true true
  (r2.1, r1.2, r2.2)

/-- Serial order 2: T2's `startBot(5)` runs first, then T1's whole
`restartBot(5)`. -/
def raceSerialStartFirst : WorkerState × Except Unit Bool × Except Unit Bool :=
  let r2 := startBot raceInit 5 "uploads/bots/5.zip" "{}" 2 12 true true
  let r1 := restartBot r2.1 5 "uploads/bots/5.zip" "{}" 1 3 13 true true true
  (r1.1, r1.2, r2.2)

/-- C9 as stated is false on the code: the source has no per-id lock
(the registry is a plain `Map`), and in the interleaving above —
possible because `restartBot` suspends for 2000 ms between its stop and
its start — `restartBot(5)` returns `false` while the concurrent
`startBot(5)` returns `true`; in both serial orders `restartBot`
returns `true` and the other start `false`.  The interleaved outcome
matches no serialization, so same-id operations are not mutually
exclusive. -/
theorem C9_counterexample :
    raceInterleaved.2.1 = .ok false ∧ raceInterleaved.2.2 = .ok true ∧
    raceSerialRestartFirst.2.1 = .ok true ∧ raceSerialRestartFirst.2.2 = .ok false ∧
    raceSerialStartFirst.2.1 = .ok true ∧ raceSerialStartFirst.2.2 = .ok false := by
  decide

/-- C9 amended: the Controller has no per-id mutual exclusion, so
same-id operations can interleave at `await` points and their results
race; what does hold is that every synchronous segment preserves the
registry's key uniqueness — each operation's membership check and
update happen in one such segment, so even the racy interleaving leaves
exactly one handle for the contended id. -/
theorem C9_no_lock_but_atomic_segments (s : WorkerState) (botId webId : Nat)
    (path cfg wpath wdom : String) (n1 n2 pid wnow : Nat) (f1 f2 f3 : Bool)
    (hb : keysNodup s.runningBots) (hw : keysNodup s.deployedWebsites) :
    keysNodup (startBot s botId path cfg n1 pid f1 f2).1.runningBots ∧
    keysNodup (stopBot s botId n1 f1).1.runningBots ∧
    keysNodup (restartBot s botId path cfg n1 n2 pid f1 f2 f3).1.runningBots ∧
    keysNodup (deployWebsite s webId wpath wdom wnow f1 f2).1.deployedWebsites ∧
    keysNodup (undeployWebsite s webId wnow f1).1.deployedWebsites ∧
    countId raceInterleaved.1.runningBots 5 = 1 ∧
    raceInterleaved.2.1 = .ok false ∧ raceInterleaved.2.2 = .ok true := by
  exact ⟨startBot_keysNodup s botId path cfg n1 pid f1 f2 hb,
    stopBot_keysNodup s botId n1 f1 hb,
    restartBot_keysNodup s botId path cfg n1 n2 pid f1 f2 f3 hb,
    deployWebsite_keysNodup s webId wpath wdom wnow f1 f2 hw,
    undeployWebsite_keysNodup s webId wnow f1 hw,
    by decide, by decide, by decide⟩

/-- Witness for the amended C9. -/
theorem C9_no_lock_but_atomic_segments_witness :
    keysNodup sampleState2.runningBots ∧
    keysNodup (restartBot sampleState2 1 "uploads/bots/1.zip" "{}" 1 2 3 true true
      true).1.runningBots ∧
    countId raceInterleaved.1.runningBots 5 = 1 := by
  have h := C9_no_lock_but_atomic_segments sampleState2 1 2 "uploads/bots/1.zip" "{}"
    "uploads/websites/2.zip" "example.com" 1 2 3 4 true true true (by decide) (by decide)
  exact ⟨by decide, h.2.2.1, h.2.2.2.2.2.1⟩

end Worker